import Mathlib

/-!
# Tooltip derivation and differencing (5pots-cli)

A shallow embedding of `internal/champion/ttp/calc.go` and
`internal/champion/diff.go`.

Conventions of the embedding:

* a Go `string` is a list of characters (`Str`);
* a Go slice that may be `nil` is an `Option (List _)`, `none` being `nil`;
* a Go `map[string]T` is an association list whose order is the order in
  which `range` visits the entries; Go chooses that order anew at every
  `range`, so the two runs of `mount` in `PrepareDiff` each see the maps of
  their model in an order of their own (`ChampionExt.visit`);
* a Go function returning `(value, error)` returns a pair whose second
  component is an `Option Str` (`none` being the `nil` error);
* a run-time panic (index out of range) is an explicit outcome;
* functions of the Go standard library and of third-party libraries are
  modelled from their documentation; functions of this repository that the
  embedded code calls but whose source is not part of the development are
  fields of `TtpExt` and `ChampionExt`.
-/

namespace Pots

/-! ## Strings -/

/-- A Go string, as the list of its characters. -/
abbrev Str := List Char

/-- Left-to-right scan of `strings.Replace(s, old, new, -1)` for a non-empty
`old`: `skip` counts the characters of a match that are still to be dropped. -/
def replaceScan (old new : Str) : Nat → Str → Str
  | _, [] => []
  | skip + 1, _ :: cs => replaceScan old new skip cs
  | 0, c :: cs =>
    if old.isPrefixOf (c :: cs) then new ++ replaceScan old new (old.length - 1) cs
    else c :: replaceScan old new 0 cs

/-- Go `strings.Replace(s, old, new, -1)`: every non-overlapping instance of
`old`, found from the left, is replaced by `new`; an empty `old` matches at the
beginning of the string and after each character. -/
def Replace (s old new : Str) : Str :=
  if old = [] then new ++ s.flatMap (fun c => c :: new)
  else replaceScan old new 0 s

/-- Go `strings.Join(elems, sep)`. -/
def Join : List Str → Str → Str
  | [], _ => []
  | [e], _ => e
  | e :: es, sep => e ++ sep ++ Join es sep

/-- Left-to-right scan of `strings.Split(s, sep)` for a non-empty `sep`: `cur`
holds the current segment reversed, `skip` the characters of a separator that
are still to be dropped. -/
def splitScan (sep : Str) : Nat → Str → Str → List Str
  | _, cur, [] => [cur.reverse]
  | skip + 1, cur, _ :: cs => splitScan sep skip cur cs
  | 0, cur, c :: cs =>
    if sep.isPrefixOf (c :: cs) then cur.reverse :: splitScan sep (sep.length - 1) [] cs
    else splitScan sep 0 (c :: cur) cs

/-- Go `strings.Split(s, sep)`: the substrings between the separators; an empty
`sep` splits after each character. -/
def Split (s sep : Str) : List Str :=
  if sep = [] then s.map (fun c => [c])
  else splitScan sep 0 [] s

/-! ## Package `ttp`: data model -/

/-- A Go `float64`, as its IEEE-754 bit pattern. Arithmetic and formatting of
floats are external (`TtpExt`). -/
structure Float64 where
  bits : Nat
  deriving DecidableEq

/-- The `float64` constant `100`. -/
def Float64.hundred : Float64 := ⟨0x4059000000000000⟩

/-- A decoded JSON value (`interface{}` as produced by `encoding/json`). -/
inductive Json where
  | null
  | bool (b : Bool)
  | num (x : Float64)
  | str (s : Str)
  | arr (xs : List Json)
  | obj (kvs : List (Str × Json))

/-- Go `map[string]T`, entries in the order `range` visits them. -/
abbrev GoMap (α : Type) := List (Str × α)

/-- Go `m[k]` with the comma-ok form: the value stored under `k`, if any. -/
def GoMap.get? {α : Type} (m : GoMap α) (k : Str) : Option α :=
  match m with
  | [] => none
  | (k1, v) :: rest => if k1 = k then some v else GoMap.get? rest k

/-- Go `m[k] = v`. -/
def GoMap.set {α : Type} (m : GoMap α) (k : Str) (v : α) : GoMap α :=
  match m with
  | [] => [(k, v)]
  | (k1, v1) :: rest => if k1 = k then (k1, v) :: rest else (k1, v1) :: GoMap.set rest k v

/-- Go `delete(m, k)`. -/
def GoMap.delete {α : Type} (m : GoMap α) (k : Str) : GoMap α :=
  m.filter (fun e => decide (e.1 ≠ k))

/-- The keys of a map, in visiting order. -/
def GoMap.keys {α : Type} (m : GoMap α) : List Str :=
  m.map Prod.fst

abbrev StatIndex := Int

abbrev StatFormulaIndex := Int

/-- The `mValues` of a data value: `[]interface{}` with a `toString` method. -/
abbrev Values := List Json

structure Breakpoint where
  Type_ : Str := []
  AdditionalBonusAtThisLevel : Float64 := ⟨0⟩
  BonusPerLevelAtAndAfter : Float64 := ⟨0⟩
  Level : Int := 0

structure FormulaPart where
  Type_ : Str := []
  DataValue : Str := []
  Coefficient : Float64 := ⟨0⟩
  EndValue : Float64 := ⟨0⟩
  StartValue : Float64 := ⟨0⟩
  Breakpoints : Option (List Breakpoint) := none
  InitialBonusPerLevel : Float64 := ⟨0⟩
  Level1Value : Float64 := ⟨0⟩
  Stat : StatIndex := 0
  StatFormula : StatFormulaIndex := 0

/-- The slice type `FormulaParts`; `none` is the `nil` slice. -/
abbrev FormulaParts := Option (List FormulaPart)

structure Multiply where
  Type_ : Str := []
  Number : Float64 := ⟨0⟩
  DataValue : Str := []

structure GameCalculation where
  Type_ : Str := []
  DisplayAsPercent : Bool := false
  FormulaParts : FormulaParts := none
  ModifiedGameCalculation : Str := []
  Multiplier : Multiply := {}

/-- Type `SpellCalc`, a `map[string]GameCalculation`. -/
abbrev SpellCalc := GoMap GameCalculation

structure SpellDataValue where
  Type_ : Str := []
  Name : Str := []
  Values : Values := []

/-- The slice type `SpellValues` of `spl.DataValues`. -/
abbrev SpellValues := List SpellDataValue

/-- The spell data of package `ttp`: the data values read by `calc.go`, and the
calculations of the spell (`mSpellCalculations`). -/
structure SpellDataResource where
  DataValues : SpellValues := []
  SpellCalculations : SpellCalc := []

structure SpellObject where
  ScriptName : Str := []
  Spell : SpellDataResource := {}

/-- A tooltip template or resolved text (`type Tooltip string`). -/
abbrev Tooltip := Str

/-- Functions of package `ttp` that `calc.go` calls and whose source is not part
of the development, with the float operations it uses. -/
structure TtpExt where
  /-- Method `Values.toString(percentage)`. -/
  valuesToString : Values → Bool → Str
  /-- Method `StatIndex.toString()`. -/
  statToString : StatIndex → Str
  /-- Method `StatFormulaIndex.toString()`. -/
  statFormulaToString : StatFormulaIndex → Str
  /-- Multiplication of two `float64`. -/
  fmul : Float64 → Float64 → Float64
  /-- Formatting a `float64` under the verb `%.2f`. -/
  fmt2f : Float64 → Str

/-! ## Package `ttp`: `calc.go` -/

/-- Function `nameddatavaluecalculationpart`. -/
def nameddatavaluecalculationpart (ext : TtpExt) (k : Str) (percentage : Bool) :
    SpellValues → Str
  | [] => []
  | val :: dv =>
    if k = val.Name then ext.valuesToString val.Values percentage
    else nameddatavaluecalculationpart ext k percentage dv

/-- Function `statbynameddatavaluecalculationpart`. -/
def statbynameddatavaluecalculationpart (ext : TtpExt) (p : FormulaPart) :
    SpellValues → Str
  | [] => []
  | val :: dv =>
    if p.DataValue = val.Name then
      let ratio := ext.valuesToString val.Values true
      let formula := ext.statFormulaToString p.StatFormula
      let stat := ext.statToString p.Stat
      "(+ ".toList ++ ratio ++ " ".toList ++ formula ++ " ".toList ++ stat ++ ")".toList
    else statbynameddatavaluecalculationpart ext p dv

/-- Function `statbycoefficientcalculationpart`. -/
def statbycoefficientcalculationpart (ext : TtpExt) (p : FormulaPart) : Str :=
  let ratio := ext.fmul p.Coefficient Float64.hundred
  let formula := ext.statFormulaToString p.StatFormula
  let stat := ext.statToString p.Stat
  "(+ ".toList ++ ext.fmt2f ratio ++ "% ".toList ++ formula ++ " ".toList ++ stat ++ ")".toList

/-- The `switch p.Type_` of `FormulaParts.toString`: the fragment appended to
`strs` for the part `p`. -/
def partFragment (ext : TtpExt) (percentage : Bool) (spl : SpellDataResource)
    (p : FormulaPart) : Str :=
  if p.Type_ = "NamedDataValueCalculationPart".toList then
    nameddatavaluecalculationpart ext p.DataValue percentage spl.DataValues
  else if p.Type_ = "StatByNamedDataValueCalculationPart".toList then
    statbynameddatavaluecalculationpart ext p spl.DataValues
  else if p.Type_ = "StatByCoefficientCalculationPart".toList then
    statbycoefficientcalculationpart ext p
  else
    "\x7b\x7bNOT IMPL: ".toList ++ p.Type_ ++ "\x7d\x7d".toList

/-- Method `FormulaParts.toString`: the loop appends one fragment per part to
`strs`, which is then joined with a space. Ranging over the `nil` slice makes
no iteration. -/
def FormulaParts.toString (ext : TtpExt) (f : FormulaParts) (percentage : Bool)
    (spl : SpellDataResource) : Str :=
  let strs := (f.getD []).foldl (fun strs p => strs ++ [partFragment ext percentage spl p]) []
  Join strs " ".toList

/-- The token `fmt.Sprintf("@%s@", key)`. -/
def token (key : Str) : Str :=
  "@".toList ++ key ++ "@".toList

/-- The body of the loop of `SpellCalc.toTooltip` for one entry of the map: the
new value of `*ttp`. -/
def toTooltipStep (ext : TtpExt) (spl : SpellDataResource) (ttp : Tooltip)
    (entry : Str × GameCalculation) : Tooltip :=
  let key := entry.1
  let val := entry.2
  if val.Type_ = "GameCalculation".toList ∧ val.FormulaParts.isSome then
    let r := FormulaParts.toString ext val.FormulaParts val.DisplayAsPercent spl
    Replace ttp (token key) r
  else ttp

/-- Method `SpellCalc.toTooltip`: the tooltip `*ttp` after the loop over the
entries of `sc`, taken in visiting order. -/
def SpellCalc.toTooltip (ext : TtpExt) (sc : SpellCalc) (ttp : Tooltip)
    (spl : SpellDataResource) : Tooltip :=
  sc.foldl (toTooltipStep ext spl) ttp

/-- A sample instance of the external functions, for evaluating the embedding
on concrete inputs: a list of values is rendered as the text of its first
value when that is a string, labels are fixed words, float formatting is a
fixed text. -/
def sampleTtpExt : TtpExt where
  valuesToString := fun vs pct =>
    match vs with
    | Json.str s :: _ => if pct then s ++ "%".toList else s
    | _ => []
  statToString := fun _ => "AP".toList
  statFormulaToString := fun _ => "bonus".toList
  fmul := fun x _ => x
  fmt2f := fun _ => "0.00".toList

/-! ## Package `champion`: data model -/

/-- The result of running Go code that may panic. -/
inductive Outcome (α : Type) where
  | ret (a : α)
  | panic (msg : Str)
  deriving DecidableEq

/-- Go `sp[i]` on a slice: a panic when `i` is out of range. -/
def index {α : Type} (sp : List α) (i : Nat) : Outcome α :=
  match sp[i]? with
  | some x => Outcome.ret x
  | none => Outcome.panic "index out of range".toList

/-- A Go `[]byte`. -/
abbrev Bytes := List UInt8

structure Champion where
  Name : Str := []

structure diffChampion where
  Name : Str := []

/-- Type `diffResult`; `none` is the `nil` slice or map, so that `diffResult{}`
is the structure with all defaults. -/
structure diffResult where
  Champion : diffChampion := {}
  Keys : Option (List Str) := none
  Live : Option (GoMap Str) := none
  PBE : Option (GoMap Str) := none
  Diff : Option (GoMap Json) := none

structure JSONData where
  Character : GoMap SpellObject := []
  Tooltips : GoMap Str := []

structure DownloadedData where
  Character : GoMap Json := []
  Tooltips : GoMap Json := []

/-- Variable `blacklist`. -/
def blacklist : List Str := ["yuumi".toList]

/-- Two spell objects hold the same entries: same script name, same data values
(a slice, whose order is fixed), and the same calculations, possibly listed in
another order. -/
def SpellObject.SameEntries (o1 o2 : SpellObject) : Prop :=
  o1.ScriptName = o2.ScriptName
  ∧ o1.Spell.DataValues = o2.Spell.DataValues
  ∧ List.Perm o1.Spell.SpellCalculations o2.Spell.SpellCalculations

/-- Two ability models are the same Go maps listed in possibly different
orders: the same template under every key of the tooltip table, the same keys
in the ability mapping, and under every key spell objects with the same
entries. -/
def JSONData.SameEntries (d1 d2 : JSONData) : Prop :=
  (∀ k, GoMap.get? d1.Tooltips k = GoMap.get? d2.Tooltips k)
  ∧ (∀ k, k ∈ GoMap.keys d1.Character ↔ k ∈ GoMap.keys d2.Character)
  ∧ (∀ k, SpellObject.SameEntries ((GoMap.get? d1.Character k).getD {})
      ((GoMap.get? d2.Character k).getD {}))

/-- What `diff.go` calls and is not part of the development: methods and
constants of this repository defined in other files, and library functions
that are taken as given. An external function that fails returns
`Except.error` with the text of its error. -/
structure ChampionExt where
  /-- Constant `common.LatestFile`. -/
  LatestFile : Str
  /-- Constant `common.PBEFile`. -/
  PBEFile : Str
  /-- Method `Champion.Load(dir, file)`. -/
  Load : Champion → Str → Str → Except Str Bytes
  /-- The type `diff.Diff` of the structural-diff library. -/
  Diff : Type
  /-- Method `Compare` of the differ made by `diff.New()`. -/
  Compare : Bytes → Bytes → Except Str Diff
  /-- Method `FormatAsJson` of the delta formatter. -/
  FormatAsJson : Diff → Except Str (GoMap Json)
  /-- Function `json.Unmarshal` into a `map[string]interface{}`. -/
  Unmarshal : Bytes → Except Str (GoMap Json)
  /-- Decoding by `mapstructure` of one value into a `ttp.SpellObject`. -/
  decodeSpellObject : Json → Except Str SpellObject
  /-- Decoding by `mapstructure` of one value into a `string`. -/
  decodeString : Json → Except Str Str
  /-- Function `strings.ToLower`. -/
  ToLower : Str → Str
  /-- Method `Tooltip.Calc(spl)` of package `ttp`: the new value of the
  tooltip, or the error. The calculation map of `spl` is listed in the order
  in which this call visits it. -/
  Calc : Tooltip → SpellDataResource → Except Str Tooltip
  /-- The order in which a run of `mount` visits the maps of its model: Go
  chooses the order of every `range` over a map, so the run numbered `n` of
  `PrepareDiff` (0 on the live model, 1 on the pbe model) sees the model `d` as
  `visit n d`, the same maps listed in an order of Go's choosing. -/
  visit : Nat → JSONData → JSONData
  /-- A run sees the entries of its model, whatever their order. -/
  visit_same : ∀ n d, JSONData.SameEntries d (visit n d)

/-- The calls that `PrepareDiff` makes, recorded in the order they are made. -/
inductive Call where
  | LoadAndDiff
  | Load (file : Str)
  | Compare
  | FormatAsJson
  | decode
  | mount
  deriving DecidableEq

/-- A run of Go code: the calls it made and how it ended. -/
structure Run (α : Type) where
  calls : List Call
  out : Outcome α

/-! ## Package `champion`: `diff.go` -/

/-- Function `doDiff`. -/
def doDiff (ext : ChampionExt) (dir : Str) (live pbe : Bytes) : Option ext.Diff × Option Str :=
  match ext.Compare live pbe with
  | Except.error err =>
    (none, some ("failed to compare /".toList ++ dir ++ " PBE and live files: ".toList ++ err))
  | Except.ok diffs => (some diffs, none)

/-- Method `Champion.LoadAndDiff`: the four results, the last being the error,
and the calls made to the collaborators. -/
def Champion.LoadAndDiff (ext : ChampionExt) (c : Champion) (dir : Str) :
    List Call × (Option (GoMap Json) × Option Bytes × Option Bytes × Option Str) :=
  match ext.Load c dir ext.LatestFile with
  | Except.error _ =>
    ([Call.Load ext.LatestFile],
      (none, none, none, some ("failed to open \"".toList ++ c.Name ++ "\" live data".toList)))
  | Except.ok live =>
    match ext.Load c dir ext.PBEFile with
    | Except.error _ =>
      ([Call.Load ext.LatestFile, Call.Load ext.PBEFile],
        (none, none, none, some ("failed to open \"".toList ++ c.Name ++ "\" PBE data".toList)))
    | Except.ok pbe =>
      match doDiff ext dir live pbe with
      | (some diffs, none) =>
        match ext.FormatAsJson diffs with
        | Except.error err =>
          ([Call.Load ext.LatestFile, Call.Load ext.PBEFile, Call.Compare, Call.FormatAsJson],
            (none, none, none, some ("failed to format diff result: ".toList ++ err)))
        | Except.ok diff =>
          ([Call.Load ext.LatestFile, Call.Load ext.PBEFile, Call.Compare, Call.FormatAsJson],
            (some diff, some live, some pbe, none))
      | _ =>
        ([Call.Load ext.LatestFile, Call.Load ext.PBEFile, Call.Compare],
          (none, none, none,
            some ("failed to diff \"".toList ++ c.Name ++ "\" PBE and live data".toList)))

/-- The decoding by `mapstructure` of a `map[string]interface{}` into a
`map[string]T`: every entry is decoded under its key; it fails when the
decoding of an entry fails. -/
def decodeMap {β : Type} (f : Json → Except Str β) : GoMap Json → Except Str (GoMap β)
  | [] => Except.ok []
  | (k, v) :: rest =>
    match f v with
    | Except.error e => Except.error e
    | Except.ok b =>
      match decodeMap f rest with
      | Except.error e => Except.error e
      | Except.ok r => Except.ok ((k, b) :: r)

/-- The call `mapstructure.Decode(m, &result)` of `decode`: field `Character`
is decoded into `map[string]ttp.SpellObject` and field `Tooltips` into
`map[string]string`. -/
def mapstructureDecode (ext : ChampionExt) (m : DownloadedData) : Except Str JSONData :=
  match decodeMap ext.decodeSpellObject m.Character with
  | Except.error e => Except.error e
  | Except.ok character =>
    match decodeMap ext.decodeString m.Tooltips with
    | Except.error e => Except.error e
    | Except.ok tooltips => Except.ok { Character := character, Tooltips := tooltips }

/-- Function `decode`. -/
def decode (ext : ChampionExt) (d : Bytes) : JSONData × Option Str :=
  match ext.Unmarshal d with
  | Except.error err => ({}, some ("failed to convert live file to json: ".toList ++ err))
  | Except.ok character =>
    let tooltips : GoMap Json :=
      match GoMap.get? character "tooltips".toList with
      | some (Json.obj n) => n
      | _ => []
    let character := GoMap.delete character "tooltips".toList
    match mapstructureDecode ext { Character := character, Tooltips := tooltips } with
    | Except.error err => ({}, some ("failed to decode data to json: ".toList ++ err))
    | Except.ok result => (result, none)

/-- The lookup key `fmt.Sprintf("generatedtip_spell_%s_tooltipextended",
strings.ToLower(ak))`. -/
def spellTipKey (ext : ChampionExt) (ak : Str) : Str :=
  "generatedtip_spell_".toList ++ ext.ToLower ak ++ "_tooltipextended".toList

/-- The lookup key `fmt.Sprintf("generatedtip_passive_%s_tooltipextended",
strings.ToLower(ak))`. -/
def passiveTipKey (ext : ChampionExt) (ak : Str) : Str :=
  "generatedtip_passive_".toList ++ ext.ToLower ak ++ "_tooltipextended".toList

/-- The statements of `mount` under `// Handle spell tooltip`, for the key `k`
whose last segment is `ak`: the map `ts` after them and no error, or the map
that `mount` returns at once with its error. -/
def mountSpell (ext : ChampionExt) (d : JSONData) (ts : GoMap Str) (k ak : Str) :
    GoMap Str × Option Str :=
  let tp : Tooltip := (GoMap.get? d.Tooltips (spellTipKey ext ak)).getD []
  let tp : Tooltip :=
    if tp.length = 0 then (GoMap.get? d.Tooltips (passiveTipKey ext ak)).getD [] else tp
  let spl := ((GoMap.get? d.Character k).getD {}).Spell
  match ext.Calc tp spl with
  | Except.error err =>
    ([], some ("failed to convert champion ability to tooltip: ".toList ++ k ++ "; ".toList ++ err))
  | Except.ok tp =>
    if tp.length ≠ 0 then (GoMap.set ts k tp, none) else (ts, none)

/-- The body of the loop of `mount` for the key `k`. The condition
`sp[0] == "Characters" && sp[2] == "Spells" && len(sp) == 5` is evaluated from
the left, each operand only when those before it are true. -/
def mountStep (ext : ChampionExt) (d : JSONData) (ts : GoMap Str) (k : Str) :
    Outcome (GoMap Str × Option Str) :=
  let sp := Split k "/".toList
  match index sp 0 with
  | Outcome.panic m => Outcome.panic m
  | Outcome.ret sp0 =>
    if sp0 = "Characters".toList then
      match index sp 2 with
      | Outcome.panic m => Outcome.panic m
      | Outcome.ret sp2 =>
        if sp2 = "Spells".toList then
          if sp.length = 5 then
            match index sp 4 with
            | Outcome.panic m => Outcome.panic m
            | Outcome.ret ak => Outcome.ret (mountSpell ext d ts k ak)
          else Outcome.ret (ts, none)
        else Outcome.ret (ts, none)
    else Outcome.ret (ts, none)

/-- The loop `for k := range d.Character` of `mount`, over the keys still to
visit: it stops at the first key whose body returns an error or panics. -/
def mountLoop (ext : ChampionExt) (d : JSONData) : List Str → GoMap Str →
    Outcome (GoMap Str × Option Str)
  | [], ts => Outcome.ret (ts, none)
  | k :: ks, ts =>
    match mountStep ext d ts k with
    | Outcome.panic m => Outcome.panic m
    | Outcome.ret (ts1, some err) => Outcome.ret (ts1, some err)
    | Outcome.ret (ts1, none) => mountLoop ext d ks ts1

/-- Function `mount`. -/
def mount (ext : ChampionExt) (d : JSONData) : Outcome (GoMap Str × Option Str) :=
  mountLoop ext d (GoMap.keys d.Character) []

/-- The body of the key-extraction loop of `PrepareDiff` for one key of the
delta, on the variables `keys` and `name`. -/
def extractStep (st : List Str × Str) (key : Str) : Outcome (List Str × Str) :=
  let keys := st.1
  let name := st.2
  match index (Split key "/".toList) 0 with
  | Outcome.panic m => Outcome.panic m
  | Outcome.ret s0 =>
    let named : Outcome Str :=
      if s0 = "Characters".toList ∧ name.length = 0 then index (Split key "/".toList) 1
      else Outcome.ret name
    match named with
    | Outcome.panic m => Outcome.panic m
    | Outcome.ret name =>
      match index key 0 with
      | Outcome.panic m => Outcome.panic m
      | Outcome.ret c0 =>
        if c0 ≠ '\x7b' then Outcome.ret (keys ++ [key], name) else Outcome.ret (keys, name)

/-- The loop `for key := range diffs` of `PrepareDiff`. -/
def extractLoop : List Str → List Str × Str → Outcome (List Str × Str)
  | [], st => Outcome.ret st
  | key :: rest, st =>
    match extractStep st key with
    | Outcome.panic m => Outcome.panic m
    | Outcome.ret st1 => extractLoop rest st1

/-- Method `Champion.PrepareDiff`: the calls made, and the pair returned or the
panic. Each of the two calls of `mount` ranges over the maps of its model in
an order of its own (`ext.visit`). -/
def Champion.PrepareDiff (ext : ChampionExt) (c : Champion) (dir outputDir : Str) :
    Run (diffResult × Option Str) :=
  if blacklist.any (fun bc => decide (bc = c.Name)) then
    ⟨[], Outcome.ret ({}, none)⟩
  else
    match c.LoadAndDiff ext dir with
    | (inner, (_, _, _, some err)) =>
      ⟨Call.LoadAndDiff :: inner,
        Outcome.ret ({}, some ("failed to diff ".toList ++ dir ++ " PBE and live files: ".toList ++ err))⟩
    | (inner, (diffs, ld, pd, none)) =>
      match extractLoop (GoMap.keys (diffs.getD [])) ([], []) with
      | Outcome.panic m => ⟨Call.LoadAndDiff :: inner, Outcome.panic m⟩
      | Outcome.ret (keys, name) =>
        match decode ext (ld.getD []) with
        | (_, some err) =>
          ⟨Call.LoadAndDiff :: inner ++ [Call.decode],
            Outcome.ret ({}, some ("failed to decode ".toList ++ dir ++ " Live files: ".toList ++ err))⟩
        | (live, none) =>
          match decode ext (pd.getD []) with
          | (_, some err) =>
            ⟨Call.LoadAndDiff :: inner ++ [Call.decode, Call.decode],
              Outcome.ret ({}, some ("failed to decode ".toList ++ dir ++ " PBE files: ".toList ++ err))⟩
          | (pbe, none) =>
            match mount ext (ext.visit 0 live) with
            | Outcome.panic m =>
              ⟨Call.LoadAndDiff :: inner ++ [Call.decode, Call.decode, Call.mount], Outcome.panic m⟩
            | Outcome.ret (_, some err) =>
              ⟨Call.LoadAndDiff :: inner ++ [Call.decode, Call.decode, Call.mount],
                Outcome.ret ({}, some ("failed to read live tooltips: ".toList ++ err))⟩
            | Outcome.ret (lttps, none) =>
              match mount ext (ext.visit 1 pbe) with
              | Outcome.panic m =>
                ⟨Call.LoadAndDiff :: inner ++ [Call.decode, Call.decode, Call.mount, Call.mount],
                  Outcome.panic m⟩
              | Outcome.ret (_, some err) =>
                ⟨Call.LoadAndDiff :: inner ++ [Call.decode, Call.decode, Call.mount, Call.mount],
                  Outcome.ret ({}, some ("failed to read PBE tooltips: ".toList ++ err))⟩
              | Outcome.ret (pttps, none) =>
                ⟨Call.LoadAndDiff :: inner ++ [Call.decode, Call.decode, Call.mount, Call.mount],
                  Outcome.ret
                    ({ Champion := { Name := name }, Live := some lttps, PBE := some pttps,
                       Keys := some keys, Diff := diffs }, none)⟩

/-- Modelled from the spec: method `Tooltip.Calc` of package `ttp`, whose source
is not part of the development. The spec says of the assembler that it
"invokes the Formula Resolver with the ability's own GameCalculation set and
DataValues against the selected template", and of the resolver that it never
fails. -/
def Tooltip.Calc (ext : TtpExt) (tp : Tooltip) (spl : SpellDataResource) : Except Str Tooltip :=
  Except.ok (SpellCalc.toTooltip ext spl.SpellCalculations tp spl)

/-- A sample instance of the collaborators of `diff.go`, for evaluating the
embedding on concrete inputs: files are read from the association list
`files` (name of the file, parsed content), the bytes of a file being its
index in that list; the delta is given; letters are lower-cased in ASCII;
every run visits the maps in the order in which they are listed. -/
def sampleChampionExt (files : List (Str × GoMap Json)) (delta : GoMap Json) : ChampionExt where
  LatestFile := "latest.json".toList
  PBEFile := "pbe.json".toList
  Load := fun _ _ file =>
    match files.findIdx? (fun f => decide (f.1 = file)) with
    | some i => Except.ok [UInt8.ofNat i]
    | none => Except.error "no such file".toList
  Diff := GoMap Json
  Compare := fun _ _ => Except.ok delta
  FormatAsJson := fun d => Except.ok d
  Unmarshal := fun b =>
    match b with
    | [i] =>
      match files[i.toNat]? with
      | some f => Except.ok f.2
      | none => Except.error "unexpected end of JSON input".toList
    | _ => Except.error "unexpected end of JSON input".toList
  decodeSpellObject := fun v =>
    match v with
    | Json.obj _ => Except.ok {}
    | Json.null => Except.ok {}
    | _ => Except.error "expected a map".toList
  decodeString := fun v =>
    match v with
    | Json.str s => Except.ok s
    | Json.null => Except.ok []
    | _ => Except.error "expected type string".toList
  ToLower := fun s => s.map Char.toLower
  Calc := Tooltip.Calc sampleTtpExt
  visit := fun _ d => d
  visit_same := fun _ _ => ⟨fun _ => rfl, fun _ => Iff.rfl, fun _ => ⟨rfl, rfl, List.Perm.refl _⟩⟩

/-! ## A model of `float64` arithmetic and formatting

IEEE 754 binary64 with rounding to nearest, ties to even, and the rendering of
`fmt` under the verb `%.2f`. It instantiates the float operations of `TtpExt`
when a part renderer is evaluated on a concrete coefficient. -/

/-- The sign bit of a `float64`. -/
def Float64.signBit (x : Float64) : Bool :=
  decide (x.bits / 2 ^ 63 % 2 = 1)

/-- The biased exponent field, 11 bits. -/
def Float64.expField (x : Float64) : Nat :=
  x.bits / 2 ^ 52 % 2 ^ 11

/-- The fraction field, 52 bits. -/
def Float64.fraction (x : Float64) : Nat :=
  x.bits % 2 ^ 52

def Float64.isNaN (x : Float64) : Bool :=
  decide (x.expField = 2047 ∧ x.fraction ≠ 0)

def Float64.isInf (x : Float64) : Bool :=
  decide (x.expField = 2047 ∧ x.fraction = 0)

def Float64.isZero (x : Float64) : Bool :=
  decide (x.expField = 0 ∧ x.fraction = 0)

/-- The integer significand of a finite `float64`: its absolute value is
`significand * 2 ^ exponent`. -/
def Float64.significand (x : Float64) : Nat :=
  if x.expField = 0 then x.fraction else 2 ^ 52 + x.fraction

/-- The binary exponent of the unit of the significand. -/
def Float64.exponent (x : Float64) : Int :=
  (if x.expField = 0 then (1 : Int) else (x.expField : Int)) - 1075

/-- The `float64` with the given sign, exponent field and fraction field. -/
def Float64.pack (sign : Bool) (expField fraction : Nat) : Float64 :=
  ⟨(if sign then 2 ^ 63 else 0) + expField * 2 ^ 52 + fraction⟩

/-- The number of binary digits of `m`, with `fuel` at least that number. -/
def bitLengthAux : Nat → Nat → Nat
  | 0, _ => 0
  | fuel + 1, m => if m = 0 then 0 else bitLengthAux fuel (m / 2) + 1

/-- The number of binary digits of `m`. -/
def bitLength (m : Nat) : Nat :=
  bitLengthAux m m

/-- The quotient of `m` by `2 ^ s` rounded to the nearest integer, ties to
even. -/
def roundHalfEven (m s : Nat) : Nat :=
  let q := m / 2 ^ s
  let r := m % 2 ^ s
  if 2 * r > 2 ^ s ∨ (2 * r = 2 ^ s ∧ q % 2 = 1) then q + 1 else q

/-- The `float64` nearest to `m * 2 ^ e` (ties to even), with the given sign;
an infinity when the value is too large. -/
def Float64.ofParts (sign : Bool) (m : Nat) (e : Int) : Float64 :=
  if m = 0 then Float64.pack sign 0 0
  else
    let shift : Int := max ((bitLength m : Int) - 53) (-1074 - e)
    let q : Nat := if shift ≤ 0 then m * 2 ^ (-shift).toNat else roundHalfEven m shift.toNat
    let carry : Bool := decide (q = 2 ^ 53)
    let q : Nat := if carry then 2 ^ 52 else q
    let e2 : Int := if carry then e + shift + 1 else e + shift
    if q < 2 ^ 52 then Float64.pack sign 0 q
    else
      let field := (e2 + 1075).toNat
      if 2047 ≤ field then Float64.pack sign 2047 0
      else Float64.pack sign field (q - 2 ^ 52)

/-- Multiplication of two `float64`. A NaN operand is returned as it is; the
product of an infinity and a zero is a NaN. -/
def Float64.mul (x y : Float64) : Float64 :=
  if x.isNaN then x
  else if y.isNaN then y
  else if x.isInf || y.isInf then
    if x.isZero || y.isZero then Float64.pack false 2047 (2 ^ 51)
    else Float64.pack (xor x.signBit y.signBit) 2047 0
  else
    Float64.ofParts (xor x.signBit y.signBit) (x.significand * y.significand)
      (x.exponent + y.exponent)

/-- The text of `fmt.Sprintf("%.2f", x)`: the value rounded to two decimals
(ties to even on the exact value), digits of the integer part, a point, two
digits; `NaN`, `+Inf` and `-Inf` for the values that are not finite. -/
def Float64.fmt2f (x : Float64) : Str :=
  if x.isNaN then "NaN".toList
  else if x.isInf then (if x.signBit then "-Inf".toList else "+Inf".toList)
  else
    let m := x.significand * 100
    let e := x.exponent
    let n : Nat := if 0 ≤ e then m * 2 ^ e.toNat else roundHalfEven m (-e).toNat
    (if x.signBit then "-".toList else []) ++ Nat.toDigits 10 (n / 100) ++ ".".toList
      ++ [Nat.digitChar (n % 100 / 10), Nat.digitChar (n % 10)]

/-- The external functions of `calc.go` with the float operations of the model
above in place of those of `sampleTtpExt`. -/
def floatTtpExt : TtpExt :=
  { sampleTtpExt with fmul := Float64.mul, fmt2f := Float64.fmt2f }

/-! ## The words of the spec on ability keys and templates -/

/-- The ability pattern of the spec, `Characters/<CharacterId>/Spells/<Index>/<AbilityId>`:
the key splits on `/` into exactly 5 segments, the first being `Characters`
and the third `Spells`. -/
def IsAbilityKey (k : Str) : Prop :=
  (Split k "/".toList).length = 5
  ∧ (Split k "/".toList)[0]? = some "Characters".toList
  ∧ (Split k "/".toList)[2]? = some "Spells".toList

instance IsAbilityKey.decidable (k : Str) : Decidable (IsAbilityKey k) := by
  unfold IsAbilityKey
  infer_instance

/-- The trailing identifier of an ability key, its fifth segment. -/
def abilityId (k : Str) : Str :=
  ((Split k "/".toList)[4]?).getD []

/-- The template that the spec selects for the ability identifier `ak`: the
entry `generatedtip_spell_<id>_tooltipextended` of the tooltip table when it is
a non-empty string, and otherwise the entry
`generatedtip_passive_<id>_tooltipextended` (the empty string when that one is
absent), `<id>` being `ak` in lower case. -/
def chosenTemplate (ext : ChampionExt) (d : JSONData) (ak : Str) : Tooltip :=
  let spellT := (GoMap.get? d.Tooltips
    ("generatedtip_spell_".toList ++ ext.ToLower ak ++ "_tooltipextended".toList)).getD []
  let passiveT := (GoMap.get? d.Tooltips
    ("generatedtip_passive_".toList ++ ext.ToLower ak ++ "_tooltipextended".toList)).getD []
  if spellT ≠ [] then spellT else passiveT

/-- The spell data stored under the key `k`, `d.Character[k].Spell`. -/
def spellOf (d : JSONData) (k : Str) : SpellDataResource :=
  ((GoMap.get? d.Character k).getD {}).Spell

/-- The entry `(k, v)` is the resolved tooltip of an ability of `d`: `k` is a key
of `d.Character` with the ability pattern, and `v` is the non-empty result of
`Calc` on the template chosen for it. -/
def Resolved (ext : ChampionExt) (d : JSONData) (k v : Str) : Prop :=
  k ∈ GoMap.keys d.Character ∧ IsAbilityKey k
  ∧ ext.Calc (chosenTemplate ext d (abilityId k)) (spellOf d k) = Except.ok v ∧ v ≠ []

/-- The changed keys of the spec: the top-level keys of the delta, in visiting
order, without those that begin with the sentinel character `\x7b`. -/
def changedKeys (ks : List Str) : List Str :=
  ks.filter (fun key => decide (key.head? ≠ some '\x7b'))

/-- The second `/`-separated segment of a key, empty when there is none. -/
def secondSegment (key : Str) : Str :=
  ((Split key "/".toList)[1]?).getD []

/-- A key under the `Characters/` namespace that names a character: its first
segment is `Characters` and its second segment is not empty. -/
def NamesCharacter (key : Str) : Prop :=
  (Split key "/".toList)[0]? = some "Characters".toList ∧ secondSegment key ≠ []

instance NamesCharacter.decidable (key : Str) : Decidable (NamesCharacter key) := by
  unfold NamesCharacter
  infer_instance

/-- The character name of a delta: the second segment of the first key, in
visiting order, that names a character; empty when no key does. -/
def characterName (ks : List Str) : Str :=
  match ks.find? (fun key => decide (NamesCharacter key)) with
  | some key => secondSegment key
  | none => []

/-- The entries of the `tooltips` entry of a raw document when that entry is a
mapping; no entry when it is absent or is not a mapping. -/
def tooltipsEntry (doc : GoMap Json) : GoMap Json :=
  match GoMap.get? doc "tooltips".toList with
  | some (Json.obj n) => n
  | _ => []

/-! ## Templates laid out around their tokens -/

/-- The text of a list of items `(key, piece)`: for each item, what stands for
the token of the key (the substitute given by `sub`, or the token itself when
there is none), followed by the piece of text. -/
def renderItems (sub : Str → Option Str) (items : List (Str × Str)) : Str :=
  items.flatMap (fun it => (sub it.1).getD (token it.1) ++ it.2)

/-- A template laid out as pieces of text around tokens,
`p0 @k1@ p1 @k2@ p2 ...`, given by its first piece and the list of its tokens,
each with the piece that follows it; `sub` gives the tokens already
substituted. -/
def renderTemplate (sub : Str → Option Str) (p0 : Str) (items : List (Str × Str)) : Str :=
  p0 ++ renderItems sub items

/-- The fragment that `toTooltip` substitutes for the token of a calculation:
none when the calculation does not take part (its type is not GameCalculation
or its parts are nil). -/
def entryFragment (ext : TtpExt) (spl : SpellDataResource) (c : GameCalculation) : Option Str :=
  if c.Type_ = "GameCalculation".toList ∧ c.FormulaParts.isSome then
    some (FormulaParts.toString ext c.FormulaParts c.DisplayAsPercent spl)
  else none

/-- The fragment that the calculation map has for a key, if any. -/
def fragmentOf (ext : TtpExt) (spl : SpellDataResource) (sc : SpellCalc) (key : Str) :
    Option Str :=
  match GoMap.get? sc key with
  | some c => entryFragment ext spl c
  | none => none

/-- The substitution `sub`, completed by `f` on the keys where it has no
value. -/
def overlay (sub f : Str → Option Str) : Str → Option Str :=
  fun key =>
    match sub key with
    | some r => some r
    | none => f key

/-- The tokens of the items are separated: every piece that is followed by
another token holds a character that occurs in none of the keys `keys`. -/
def Separated (keys : List Str) : List (Str × Str) → Prop
  | [] => True
  | [_] => True
  | it :: next :: rest => (∃ c ∈ it.2, ∀ key ∈ keys, c ∉ key) ∧ Separated keys (next :: rest)

/-! ## Sample data -/

/-- The calculation `Damage` of the example of the spec: one part of type
`NamedDataValueCalculationPart` reading the data value `BaseDamage`. -/
def damageCalc : GameCalculation :=
  { Type_ := "GameCalculation".toList,
    FormulaParts := some [{ Type_ := "NamedDataValueCalculationPart".toList,
                            DataValue := "BaseDamage".toList }] }

/-- A spell whose data value `BaseDamage` renders to `80`. -/
def damageSpell : SpellDataResource :=
  { DataValues := [{ Name := "BaseDamage".toList, Values := [Json.str "80".toList] }] }

/-- A calculation of type GameCalculation whose parts are the empty, non-nil
slice (as decoded from `"mFormulaParts": []`). -/
def emptyPartsCalc : GameCalculation :=
  { Type_ := "GameCalculation".toList, FormulaParts := some [] }

/-- A calculation whose parts are the `nil` slice. -/
def nilPartsCalc : GameCalculation :=
  { Type_ := "GameCalculation".toList, FormulaParts := none }

/-- An ability model with three abilities and one entry that is not an
ability: `AatroxQ` has a spell template (and an unused passive one),
`AatroxPassive` only a passive template, `AatroxW` no template. -/
def sampleData : JSONData :=
  { Character :=
      [("Characters/Aatrox/Spells/AatroxQAbility/AatroxQ".toList,
          { Spell := { DataValues := damageSpell.DataValues,
                       SpellCalculations := [("Damage".toList, damageCalc)] } }),
       ("Characters/Aatrox/Spells/AatroxPassiveAbility/AatroxPassive".toList, {}),
       ("Characters/Aatrox/Spells/AatroxWAbility/AatroxW".toList, {}),
       ("Characters/Aatrox/CharacterRecords/Root".toList, {})],
    Tooltips :=
      [("generatedtip_spell_aatroxq_tooltipextended".toList, "Deals @Damage@ magic damage.".toList),
       ("generatedtip_passive_aatroxq_tooltipextended".toList, "Unused.".toList),
       ("generatedtip_passive_aatroxpassive_tooltipextended".toList, "Heals.".toList)] }

/-- The collaborators used with `sampleData`: no file, an empty delta. -/
def sampleExt : ChampionExt := sampleChampionExt [] []

/-- An ability model whose only key is `Characters/Aatrox`. -/
def shortKeyData : JSONData :=
  { Character := [("Characters/Aatrox".toList, {})] }

/-- An ability model whose only key is `Characters`. -/
def oneSegmentData : JSONData :=
  { Character := [("Characters".toList, {})] }

/-- A raw export with two abilities and its tooltip table. -/
def sampleDoc : GoMap Json :=
  [("Characters/Aatrox/Spells/AatroxQAbility/AatroxQ".toList, Json.obj []),
   ("tooltips".toList,
      Json.obj [("generatedtip_spell_aatroxq_tooltipextended".toList, Json.str "Slash.".toList)]),
   ("Characters/Aatrox/Spells/AatroxPassiveAbility/AatroxPassive".toList, Json.obj [])]

/-- The collaborators over the one file `latest.json`, whose content is
`sampleDoc`; its bytes are `[0]`. -/
def sampleDocExt : ChampionExt := sampleChampionExt [("latest.json".toList, sampleDoc)] []

/-- The champion of the denylist. -/
def yuumi : Champion := { Name := "yuumi".toList }

/-- A champion that is not in the denylist. -/
def aatrox : Champion := { Name := "aatrox".toList }

/-- The collaborators over two files `latest.json` and `pbe.json` with the
content `sampleDoc` (their bytes are `[0]` and `[1]`), the structural diff
returning `delta`. -/
def twoFilesExt (delta : GoMap Json) : ChampionExt :=
  sampleChampionExt [("latest.json".toList, sampleDoc), ("pbe.json".toList, sampleDoc)] delta

/-- A delta with one changed ability, one changed character record and one
key that begins with the sentinel character. -/
def sampleDelta : GoMap Json :=
  [("\x7b0a1b2c3d\x7d".toList, Json.null),
   ("Characters/Aatrox/Spells/AatroxQAbility/AatroxQ".toList, Json.null),
   ("Characters/Aatrox/CharacterRecords/Root".toList, Json.null)]

/-- A delta one of whose top-level keys is the empty string. -/
def emptyKeyDelta : GoMap Json :=
  [("Characters/Aatrox/Spells/AatroxQAbility/AatroxQ".toList, Json.null), ([], Json.null)]

/-- A delta whose only top-level key is `Characters`. -/
def charactersKeyDelta : GoMap Json :=
  [("Characters".toList, Json.null)]

/-- A delta whose first key under `Characters` has an empty second segment. -/
def unnamedFirstDelta : GoMap Json :=
  [("Characters//Spells".toList, Json.null),
   ("Characters/Aatrox/Spells/AatroxQAbility/AatroxQ".toList, Json.null)]

/-- A part of type `StatByNamedDataValueCalculationPart` reading the data value
`BaseDamage`. -/
def statByNamedPart : FormulaPart :=
  { Type_ := "StatByNamedDataValueCalculationPart".toList, DataValue := "BaseDamage".toList }

/-- Data values in which the name `BaseDamage` occurs twice, after another
name. -/
def repeatedValues : SpellValues :=
  [{ Name := "Other".toList, Values := [Json.str "1".toList] },
   { Name := "BaseDamage".toList, Values := [Json.str "80".toList] },
   { Name := "BaseDamage".toList, Values := [Json.str "95".toList] }]

/-- A raw export without a `tooltips` entry. -/
def noTooltipsDoc : GoMap Json :=
  [("Characters/Aatrox/Spells/AatroxQAbility/AatroxQ".toList, Json.obj []),
   ("Characters/Aatrox/CharacterRecords/Root".toList, Json.obj [])]

/-- The collaborators over the files `latest.json` (content `sampleDoc`, bytes
`[0]`) and `pbe.json` (content `noTooltipsDoc`, bytes `[1]`). -/
def mixedFilesExt : ChampionExt :=
  sampleChampionExt [("latest.json".toList, sampleDoc), ("pbe.json".toList, noTooltipsDoc)] []

/-- The `float64` `0.5`. -/
def Float64.half : Float64 := ⟨0x3FE0000000000000⟩

/-- A part of type `StatByCoefficientCalculationPart` with coefficient `0.5`. -/
def halfCoefficientPart : FormulaPart :=
  { Type_ := "StatByCoefficientCalculationPart".toList, Coefficient := Float64.half }

/-- A calculation whose only part has the unknown type `@B@`, so that its
fragment holds the token of the key `B`. -/
def chainA : GameCalculation :=
  { Type_ := "GameCalculation".toList, FormulaParts := some [{ Type_ := "@B@".toList }] }

/-- A calculation whose only part has the unknown type `X`. -/
def chainB : GameCalculation :=
  { Type_ := "GameCalculation".toList, FormulaParts := some [{ Type_ := "X".toList }] }

/-- A calculation whose only part is `statByNamedPart`. -/
def bonusCalc : GameCalculation :=
  { Type_ := "GameCalculation".toList, FormulaParts := some [statByNamedPart] }

/-- The tokens, each with the piece of text that follows it, of the template
`Deals @Damage@ magic damage plus @Bonus@ bonus.` after its first piece
`Deals `. -/
def damageBonusItems : List (Str × Str) :=
  [("Damage".toList, " magic damage plus ".toList), ("Bonus".toList, " bonus.".toList)]

/-- The spell object with its calculations listed in the reverse order. -/
def SpellObject.reverseCalculations (o : SpellObject) : SpellObject :=
  { o with Spell := { o.Spell with SpellCalculations := o.Spell.SpellCalculations.reverse } }

/-- The ability model with the calculations of every spell listed in the
reverse order. -/
def JSONData.reverseCalculations (d : JSONData) : JSONData :=
  { d with Character := d.Character.map (fun e => (e.1, e.2.reverseCalculations)) }

/-- The collaborators `base`, with a second run of `mount` that visits the
calculations of every spell in the reverse of the order of the first run. -/
def reversingExt (base : ChampionExt) : ChampionExt :=
  { base with
    visit := fun n d => if n = 1 then d.reverseCalculations else d
    visit_same := by
      intro n d
      have hget : ∀ (m : GoMap SpellObject) (k : Str),
          GoMap.get? (m.map (fun e => (e.1, e.2.reverseCalculations))) k
            = (GoMap.get? m k).map SpellObject.reverseCalculations := by
        intro m k
        induction m with
        | nil => rfl
        | cons e m ih =>
          by_cases h : e.1 = k
          · simp only [List.map_cons, GoMap.get?, if_pos h, Option.map_some']
          · simp only [List.map_cons, GoMap.get?, if_neg h, ih]
      by_cases hn : n = 1
      · simp only [if_pos hn]
        refine ⟨fun _ => rfl, ?_, ?_⟩
        · intro k
          simp only [JSONData.reverseCalculations, GoMap.keys, List.map_map, List.mem_map,
            Function.comp_apply]
        · intro k
          simp only [JSONData.reverseCalculations]
          rw [hget]
          cases GoMap.get? d.Character k with
          | none => exact ⟨rfl, rfl, List.Perm.refl _⟩
          | some o => exact ⟨rfl, rfl, (List.reverse_perm _).symm⟩
      · simp only [if_neg hn]
        exact ⟨fun _ => rfl, fun _ => Iff.rfl, fun _ => ⟨rfl, rfl, List.Perm.refl _⟩⟩ }

/-- A raw export with one ability whose template is `@A@B@`. -/
def overlapDoc : GoMap Json :=
  [("Characters/Aatrox/Spells/AatroxQAbility/AatroxQ".toList, Json.obj []),
   ("tooltips".toList,
      Json.obj [("generatedtip_spell_aatroxq_tooltipextended".toList, Json.str "@A@B@".toList)])]

/-- A spell object with the calculations `A` and `B`, both rendering `80`. -/
def overlapObject : SpellObject :=
  { Spell := { DataValues := damageSpell.DataValues,
               SpellCalculations := [("A".toList, damageCalc), ("B".toList, damageCalc)] } }

/-- The collaborators over the one file `latest.json`, content `overlapDoc`,
read as both the live and the pbe document (the same bytes `[0]`): every
ability decodes to `overlapObject`, the structural diff is the empty delta,
and the second run of `mount` visits the calculations in the reverse order. -/
def overlapExt : ChampionExt :=
  reversingExt
    { sampleChampionExt [("latest.json".toList, overlapDoc)] [] with
      PBEFile := "latest.json".toList
      decodeSpellObject := fun _ => Except.ok overlapObject }

/-- A raw export with one ability whose template is
`Deals @Damage@ magic damage plus @Bonus@ bonus.`. -/
def separatedDoc : GoMap Json :=
  [("Characters/Aatrox/Spells/AatroxQAbility/AatroxQ".toList, Json.obj []),
   ("tooltips".toList,
      Json.obj [("generatedtip_spell_aatroxq_tooltipextended".toList,
        Json.str "Deals @Damage@ magic damage plus @Bonus@ bonus.".toList)])]

/-- A spell object with the calculations `Damage` and `Bonus`. -/
def separatedObject : SpellObject :=
  { Spell := { DataValues := damageSpell.DataValues,
               SpellCalculations :=
                 [("Damage".toList, damageCalc), ("Bonus".toList, bonusCalc)] } }

/-- The collaborators of `overlapExt` over the document `separatedDoc`, every
ability decoding to `separatedObject`. -/
def separatedExt : ChampionExt :=
  reversingExt
    { sampleChampionExt [("latest.json".toList, separatedDoc)] [] with
      PBEFile := "latest.json".toList
      decodeSpellObject := fun _ => Except.ok separatedObject }

/-- A raw export with one ability, its tooltip table and a character record,
whose key does not have the ability pattern. -/
def recordsDoc : GoMap Json :=
  [("Characters/Aatrox/Spells/AatroxQAbility/AatroxQ".toList, Json.obj []),
   ("tooltips".toList,
      Json.obj [("generatedtip_spell_aatroxq_tooltipextended".toList, Json.str "Slash.".toList)]),
   ("Characters/Aatrox/CharacterRecords/Root".toList, Json.obj [])]

/-- The collaborators over the one file `latest.json`, whose content is
`recordsDoc`; its bytes are `[0]`. -/
def recordsExt : ChampionExt := sampleChampionExt [("latest.json".toList, recordsDoc)] []

/-! ## Lemmas on the string functions -/

theorem replaceScan_skip (old new : Str) (n : Nat) (s : Str) :
    replaceScan old new n s = replaceScan old new 0 (s.drop n) := by
  induction n generalizing s with
  | zero => simp
  | succ n ih =>
    cases s with
    | nil => simp [replaceScan]
    | cons c cs => simp [replaceScan, ih cs]

theorem replaceScan_of_not_infix (old new : Str) (s : Str) (h : ¬ old <:+: s) :
    replaceScan old new 0 s = s := by
  induction s with
  | nil => simp [replaceScan]
  | cons c cs ih =>
    have hp : ¬ old <+: c :: cs := fun hp => h hp.isInfix
    have hi : ¬ old <:+: cs := fun hi => h (hi.trans (List.infix_cons (List.infix_refl cs)))
    simp [replaceScan, List.isPrefixOf_iff_prefix, hp, ih hi]

theorem Replace_of_not_infix (s old new : Str) (h : ¬ old <:+: s) :
    Replace s old new = s := by
  have hne : old ≠ [] := by
    rintro rfl
    exact h List.nil_infix
  simp [Replace, hne, replaceScan_of_not_infix old new s h]

theorem replaceScan_piece (old new : Str) (hne : old ≠ []) (p rest : Str)
    (h : ¬ old <:+: (p ++ old).dropLast) :
    replaceScan old new 0 (p ++ old ++ rest) = p ++ new ++ replaceScan old new 0 rest := by
  induction p with
  | nil =>
    cases old with
    | nil => exact absurd rfl hne
    | cons o os =>
      have hpre : (o :: os).isPrefixOf (o :: (os ++ rest)) = true := by
        rw [List.isPrefixOf_iff_prefix]
        exact List.prefix_append (o :: os) rest
      simp only [List.nil_append, List.cons_append, replaceScan, hpre, if_true]
      rw [replaceScan_skip]
      simp
  | cons c p ih =>
    have hdl : (c :: p ++ old).dropLast = c :: (p ++ old).dropLast := by
      cases hpo : p ++ old with
      | nil => simp [hne] at hpo
      | cons x xs => simp [hpo]
    have hi : ¬ old <:+: (p ++ old).dropLast := by
      intro hi
      apply h
      rw [hdl]
      exact hi.trans (List.infix_cons (List.infix_refl _))
    have hp : ¬ old <+: c :: (p ++ old ++ rest) := by
      intro hp
      apply h
      have hsplit : c :: (p ++ old ++ rest)
          = (c :: p ++ old).dropLast ++ ((c :: p ++ old).drop ((c :: p ++ old).length - 1) ++ rest) := by
        rw [← List.append_assoc, List.dropLast_eq_take, List.take_append_drop]
        simp
      rw [hsplit] at hp
      have hlen : old.length ≤ ((c :: p ++ old).dropLast).length := by
        simp
      exact (List.prefix_of_prefix_length_le hp (List.prefix_append _ _) hlen).isInfix
    have ih1 := ih hi
    simp only [List.cons_append, List.append_assoc] at ih1 ⊢
    simp only [List.append_assoc] at hp
    simp [replaceScan, List.isPrefixOf_iff_prefix, hp, ih1]

theorem replaceScan_pieces (old new : Str) (hne : old ≠ []) (ps : List Str) (last : Str)
    (hps : ∀ p ∈ ps, ¬ old <:+: (p ++ old).dropLast) (hlast : ¬ old <:+: last) :
    replaceScan old new 0 (ps.flatMap (fun p => p ++ old) ++ last)
      = ps.flatMap (fun p => p ++ new) ++ last := by
  induction ps with
  | nil => simpa using replaceScan_of_not_infix old new last hlast
  | cons p ps ih =>
    have h1 := replaceScan_piece old new hne p (ps.flatMap (fun p => p ++ old) ++ last)
      (hps p (List.mem_cons_self _ _))
    have h2 := ih (fun q hq => hps q (List.mem_cons_of_mem _ hq))
    simp only [List.flatMap_cons, List.append_assoc] at h1 ⊢
    rw [h1, h2]

theorem token_ne_nil (k : Str) : token k ≠ [] := by
  simp [token]

theorem Replace_pieces (old new : Str) (hne : old ≠ []) (ps : List Str) (last : Str)
    (hps : ∀ p ∈ ps, ¬ old <:+: (p ++ old).dropLast) (hlast : ¬ old <:+: last) :
    Replace (ps.flatMap (fun p => p ++ old) ++ last) old new
      = ps.flatMap (fun p => p ++ new) ++ last := by
  simp only [Replace, hne, if_false]
  exact replaceScan_pieces old new hne ps last hps hlast

theorem foldl_fragments {α : Type} (f : α → Str) (ps : List α) (acc : List Str) :
    ps.foldl (fun strs p => strs ++ [f p]) acc = acc ++ ps.map f := by
  induction ps generalizing acc with
  | nil => simp
  | cons p ps ih => simp [ih]

theorem Join_eq_intercalate (xs : List Str) (sep : Str) :
    Join xs sep = sep.intercalate xs := by
  induction xs with
  | nil => simp [Join, List.intercalate]
  | cons x xs ih =>
    cases xs with
    | nil => simp [Join, List.intercalate]
    | cons y ys =>
      simp only [Join, ih]
      simp [List.intercalate]

theorem Join_append (a : Str) (xs : List Str) (b : Str) (ys : List Str) (sep : Str) :
    Join ((a :: xs) ++ (b :: ys)) sep = Join (a :: xs) sep ++ sep ++ Join (b :: ys) sep := by
  induction xs generalizing a with
  | nil => simp [Join]
  | cons x xs ih =>
    have h := ih x
    simp only [List.cons_append] at h
    show a ++ sep ++ Join (x :: (xs ++ b :: ys)) sep
      = a ++ sep ++ Join (x :: xs) sep ++ sep ++ Join (b :: ys) sep
    rw [h]
    simp only [List.append_assoc]

theorem toString_eq_Join (ext : TtpExt) (ps : List FormulaPart) (pct : Bool)
    (spl : SpellDataResource) :
    FormulaParts.toString ext (some ps) pct spl
      = Join (ps.map (partFragment ext pct spl)) " ".toList := by
  simp [FormulaParts.toString, foldl_fragments]

theorem toTooltipStep_unchanged (ext : TtpExt) (spl : SpellDataResource) (t : Tooltip)
    (e : Str × GameCalculation) (h : ¬ token e.1 <:+: t) :
    toTooltipStep ext spl t e = t := by
  simp only [toTooltipStep]
  split
  · exact Replace_of_not_infix _ _ _ h
  · rfl

/-! ## Formula resolver: claims C1 to C5 -/

/-- C1: for a calculation of type GameCalculation with non-nil parts, toTooltip
on the one-entry map sets the tooltip to the template with every occurrence of
the token replaced by the rendering of the parts: it is `strings.Replace` with
no limit; a template without the token is unchanged; and a template cut at
each of its occurrences of the token (pieces in which the token occurs only
at the very end, then a last piece without it) becomes the same pieces with
the rendering in place of the token. -/
theorem toTooltip_single_replaces_every_token (ext : TtpExt) (spl : SpellDataResource)
    (t k : Str) (c : GameCalculation)
    (hType : c.Type_ = "GameCalculation".toList) (hParts : c.FormulaParts ≠ none) :
    SpellCalc.toTooltip ext [(k, c)] t spl
        = Replace t (token k) (FormulaParts.toString ext c.FormulaParts c.DisplayAsPercent spl)
    ∧ (¬ token k <:+: t → SpellCalc.toTooltip ext [(k, c)] t spl = t)
    ∧ (∀ (ps : List Str) (last : Str),
        t = ps.flatMap (fun p => p ++ token k) ++ last →
        (∀ p ∈ ps, ¬ token k <:+: (p ++ token k).dropLast) →
        ¬ token k <:+: last →
        SpellCalc.toTooltip ext [(k, c)] t spl
          = ps.flatMap
              (fun p => p ++ FormulaParts.toString ext c.FormulaParts c.DisplayAsPercent spl)
            ++ last) := by
  have hsome : c.FormulaParts.isSome = true := by
    cases hfp : c.FormulaParts with
    | none => exact absurd hfp hParts
    | some ps => rfl
  have hrun : SpellCalc.toTooltip ext [(k, c)] t spl
      = Replace t (token k) (FormulaParts.toString ext c.FormulaParts c.DisplayAsPercent spl) := by
    simp [SpellCalc.toTooltip, toTooltipStep, hType, hsome]
  refine ⟨hrun, ?_, ?_⟩
  · intro hno
    rw [hrun]
    exact Replace_of_not_infix _ _ _ hno
  · intro ps last ht hps hlast
    rw [hrun, ht]
    exact Replace_pieces _ _ (token_ne_nil k) ps last hps hlast

/-- Witness of C1: the example of the spec, and a template with two
occurrences of the token. -/
theorem toTooltip_single_replaces_every_token_witness :
    damageCalc.Type_ = "GameCalculation".toList ∧ damageCalc.FormulaParts ≠ none
    ∧ SpellCalc.toTooltip sampleTtpExt [("Damage".toList, damageCalc)]
        "Deals @Damage@ magic damage.".toList damageSpell = "Deals 80 magic damage.".toList
    ∧ SpellCalc.toTooltip sampleTtpExt [("Damage".toList, damageCalc)]
        "@Damage@ now, @Damage@ later".toList damageSpell = "80 now, 80 later".toList :=
  ⟨by decide, by simp [damageCalc],
    (toTooltip_single_replaces_every_token sampleTtpExt damageSpell
      "Deals @Damage@ magic damage.".toList "Damage".toList damageCalc
      (by decide) (by simp [damageCalc])).1.trans (by decide),
    ((toTooltip_single_replaces_every_token sampleTtpExt damageSpell
      "@Damage@ now, @Damage@ later".toList "Damage".toList damageCalc
      (by decide) (by simp [damageCalc])).2.2 ["".toList, " now, ".toList] " later".toList
      (by decide) (by decide) (by decide)).trans (by decide)⟩

/-- C2: toString renders one fragment per part, in the order of the list,
joined by exactly one space: it is the intercalation of a space in the list of
the fragments; the empty list and the nil slice give the empty string, a
one-part list the fragment of its part, and the rendering of two non-empty lists put end to end
is their renderings with one space between. -/
theorem toString_joins_fragments_in_order (ext : TtpExt) (pct : Bool) (spl : SpellDataResource) :
    (∀ ps : List FormulaPart, FormulaParts.toString ext (some ps) pct spl
        = " ".toList.intercalate (ps.map (partFragment ext pct spl)))
    ∧ FormulaParts.toString ext (some []) pct spl = []
    ∧ FormulaParts.toString ext none pct spl = []
    ∧ (∀ p : FormulaPart, FormulaParts.toString ext (some [p]) pct spl
        = partFragment ext pct spl p)
    ∧ (∀ (a : FormulaPart) (xs : List FormulaPart) (b : FormulaPart) (ys : List FormulaPart),
        FormulaParts.toString ext (some ((a :: xs) ++ (b :: ys))) pct spl
          = FormulaParts.toString ext (some (a :: xs)) pct spl ++ " ".toList
            ++ FormulaParts.toString ext (some (b :: ys)) pct spl) := by
  refine ⟨?_, ?_, rfl, ?_, ?_⟩
  · intro ps
    rw [toString_eq_Join, Join_eq_intercalate]
  · simp [toString_eq_Join, Join]
  · intro p
    simp [toString_eq_Join, Join]
  · intro a xs b ys
    simp only [toString_eq_Join, List.map_append, List.map_cons]
    exact Join_append _ _ _ _ _

/-- C3: a part whose type is none of the three known tags renders as the
placeholder made of its type between `NOT IMPL: ` and the braces, whatever the
flag and the data values; rendering is a total function. -/
theorem unknown_part_renders_placeholder (ext : TtpExt) (pct : Bool) (spl : SpellDataResource)
    (p : FormulaPart)
    (h1 : p.Type_ ≠ "NamedDataValueCalculationPart".toList)
    (h2 : p.Type_ ≠ "StatByNamedDataValueCalculationPart".toList)
    (h3 : p.Type_ ≠ "StatByCoefficientCalculationPart".toList) :
    partFragment ext pct spl p = "\x7b\x7bNOT IMPL: ".toList ++ p.Type_ ++ "\x7d\x7d".toList
    ∧ FormulaParts.toString ext (some [p]) pct spl
        = "\x7b\x7bNOT IMPL: ".toList ++ p.Type_ ++ "\x7d\x7d".toList := by
  have h : partFragment ext pct spl p
      = "\x7b\x7bNOT IMPL: ".toList ++ p.Type_ ++ "\x7d\x7d".toList := by
    unfold partFragment
    rw [if_neg h1, if_neg h2, if_neg h3]
  refine ⟨h, ?_⟩
  rw [toString_eq_Join]
  simp only [List.map_cons, List.map_nil, Join]
  exact h

/-- Witness of C3: the tag `FutureCalcType`. -/
theorem unknown_part_renders_placeholder_witness :
    FormulaParts.toString sampleTtpExt (some [{ Type_ := "FutureCalcType".toList }]) true damageSpell
      = "\x7b\x7bNOT IMPL: FutureCalcType\x7d\x7d".toList :=
  (unknown_part_renders_placeholder sampleTtpExt true damageSpell
    { Type_ := "FutureCalcType".toList } (by decide) (by decide) (by decide)).2

/-- Counterexample to C4 as stated: a calculation of type GameCalculation whose
parts are empty but not nil does take part in the resolution; every occurrence
of its token is replaced by the empty string. -/
theorem empty_parts_change_template :
    emptyPartsCalc.Type_ = "GameCalculation".toList
    ∧ (emptyPartsCalc.FormulaParts.getD []).length = 0
    ∧ SpellCalc.toTooltip sampleTtpExt [("Damage".toList, emptyPartsCalc)]
        "Deals @Damage@ magic damage.".toList damageSpell = "Deals  magic damage.".toList
    ∧ SpellCalc.toTooltip sampleTtpExt [("Damage".toList, emptyPartsCalc)]
        "Deals @Damage@ magic damage.".toList damageSpell ≠ "Deals @Damage@ magic damage.".toList := by
  decide

/-- C4, amended: a calculation whose type is not GameCalculation or whose parts
are the nil slice leaves the template unchanged, whether or not the template
holds its token; a calculation of type GameCalculation with an empty, non-nil
list of parts replaces every occurrence of its token by the empty string. -/
theorem toTooltip_skips_other_types_and_nil_parts (ext : TtpExt) (spl : SpellDataResource)
    (t k : Str) (c : GameCalculation) :
    ((c.Type_ ≠ "GameCalculation".toList ∨ c.FormulaParts = none) →
      SpellCalc.toTooltip ext [(k, c)] t spl = t)
    ∧ (c.Type_ = "GameCalculation".toList → c.FormulaParts = some [] →
      SpellCalc.toTooltip ext [(k, c)] t spl = Replace t (token k) []) := by
  constructor
  · intro h
    have hcond : ¬ (c.Type_ = "GameCalculation".toList ∧ c.FormulaParts.isSome = true) := by
      rintro ⟨h1, h2⟩
      rcases h with h | h
      · exact h h1
      · rw [h] at h2
        exact absurd h2 (by decide)
    simp only [SpellCalc.toTooltip, List.foldl_cons, List.foldl_nil, toTooltipStep]
    rw [if_neg hcond]
  · intro h1 h2
    have hcond : c.Type_ = "GameCalculation".toList ∧ c.FormulaParts.isSome = true := by
      rw [h2]
      exact ⟨h1, rfl⟩
    simp only [SpellCalc.toTooltip, List.foldl_cons, List.foldl_nil, toTooltipStep]
    rw [if_pos hcond, h2]
    rfl

/-- Witness of C4 as amended: a template that holds the token, with a
calculation of another type, with nil parts, and with empty parts. -/
theorem toTooltip_skips_other_types_and_nil_parts_witness :
    SpellCalc.toTooltip sampleTtpExt
        [("Damage".toList, { damageCalc with Type_ := "OtherCalculation".toList })]
        "Deals @Damage@ magic damage.".toList damageSpell = "Deals @Damage@ magic damage.".toList
    ∧ SpellCalc.toTooltip sampleTtpExt [("Damage".toList, nilPartsCalc)]
        "Deals @Damage@ magic damage.".toList damageSpell = "Deals @Damage@ magic damage.".toList
    ∧ SpellCalc.toTooltip sampleTtpExt [("Damage".toList, emptyPartsCalc)]
        "Deals @Damage@ magic damage.".toList damageSpell = "Deals  magic damage.".toList :=
  ⟨(toTooltip_skips_other_types_and_nil_parts sampleTtpExt damageSpell
      "Deals @Damage@ magic damage.".toList "Damage".toList
      { damageCalc with Type_ := "OtherCalculation".toList }).1 (Or.inl (by decide)),
    (toTooltip_skips_other_types_and_nil_parts sampleTtpExt damageSpell
      "Deals @Damage@ magic damage.".toList "Damage".toList nilPartsCalc).1 (Or.inr rfl),
    ((toTooltip_skips_other_types_and_nil_parts sampleTtpExt damageSpell
      "Deals @Damage@ magic damage.".toList "Damage".toList emptyPartsCalc).2
        (by decide) rfl).trans (by decide)⟩

/-- C5: a template that holds the token of no key of the calculation map is
returned unchanged by toTooltip. -/
theorem toTooltip_unchanged_without_tokens (ext : TtpExt) (sc : SpellCalc) (t : Tooltip)
    (spl : SpellDataResource) (h : ∀ k ∈ GoMap.keys sc, ¬ token k <:+: t) :
    SpellCalc.toTooltip ext sc t spl = t := by
  induction sc with
  | nil => rfl
  | cons e sc ih =>
    have he : toTooltipStep ext spl t e = t :=
      toTooltipStep_unchanged ext spl t e (h e.1 (List.mem_cons_self _ _))
    have hrest : ∀ k ∈ GoMap.keys sc, ¬ token k <:+: t := fun k hk =>
      h k (List.mem_cons_of_mem _ hk)
    simp only [SpellCalc.toTooltip, List.foldl_cons, he]
    exact ih hrest

/-- Witness of C5: a resolved tooltip and a map of two calculations. -/
theorem toTooltip_unchanged_without_tokens_witness :
    SpellCalc.toTooltip sampleTtpExt
        [("Damage".toList, damageCalc), ("Heal".toList, emptyPartsCalc)]
        "Deals 80 magic damage.".toList damageSpell = "Deals 80 magic damage.".toList :=
  toTooltip_unchanged_without_tokens sampleTtpExt
    [("Damage".toList, damageCalc), ("Heal".toList, emptyPartsCalc)]
    "Deals 80 magic damage.".toList damageSpell
    (by
      intro k hk
      simp only [GoMap.keys, List.map_cons, List.map_nil, List.mem_cons, List.mem_nil_iff,
        or_false] at hk
      rcases hk with rfl | rfl <;> decide)

/-! ## Lemmas on maps and on `mount` -/

theorem GoMap.get?_set_self {α : Type} (m : GoMap α) (k : Str) (v : α) :
    GoMap.get? (GoMap.set m k v) k = some v := by
  induction m with
  | nil => simp [GoMap.set, GoMap.get?]
  | cons e m ih =>
    obtain ⟨k1, v1⟩ := e
    by_cases h : k1 = k
    · simp [GoMap.set, GoMap.get?, h]
    · simp [GoMap.set, GoMap.get?, h, ih]

theorem GoMap.get?_set_other {α : Type} (m : GoMap α) (k k2 : Str) (v : α) (hne : k2 ≠ k) :
    GoMap.get? (GoMap.set m k v) k2 = GoMap.get? m k2 := by
  induction m with
  | nil =>
    have : ¬ k = k2 := fun h => hne h.symm
    simp [GoMap.set, GoMap.get?, this]
  | cons e m ih =>
    obtain ⟨k1, v1⟩ := e
    by_cases h : k1 = k
    · subst h
      have : ¬ k1 = k2 := fun h => hne h.symm
      simp [GoMap.set, GoMap.get?, this]
    · by_cases h2 : k1 = k2
      · simp only [GoMap.set, if_neg h, GoMap.get?, if_pos h2]
      · simp only [GoMap.set, if_neg h, GoMap.get?, if_neg h2, ih]

theorem GoMap.mem_set {α : Type} (m : GoMap α) (k : Str) (v : α) (p : Str × α)
    (hp : p ∈ GoMap.set m k v) : p ∈ m ∨ p = (k, v) := by
  induction m with
  | nil =>
    simp only [GoMap.set, List.mem_singleton] at hp
    exact Or.inr hp
  | cons e m ih =>
    obtain ⟨k1, v1⟩ := e
    by_cases h : k1 = k
    · subst h
      simp only [GoMap.set, if_true, List.mem_cons] at hp
      rcases hp with hp | hp
      · exact Or.inr hp
      · exact Or.inl (List.mem_cons_of_mem _ hp)
    · simp only [GoMap.set, if_neg h, List.mem_cons] at hp
      rcases hp with hp | hp
      · exact Or.inl (hp ▸ List.mem_cons_self _ _)
      · rcases ih hp with h1 | h1
        · exact Or.inl (List.mem_cons_of_mem _ h1)
        · exact Or.inr h1

theorem GoMap.get?_eq_none_of_not_mem {α : Type} (m : GoMap α) (k : Str)
    (h : k ∉ GoMap.keys m) : GoMap.get? m k = none := by
  induction m with
  | nil => rfl
  | cons e m ih =>
    obtain ⟨k1, v1⟩ := e
    have h1 : ¬ k1 = k := fun hk => h (hk ▸ List.mem_cons_self _ _)
    have h2 : k ∉ GoMap.keys m := fun hk => h (List.mem_cons_of_mem _ hk)
    simp [GoMap.get?, h1, ih h2]

theorem GoMap.mem_of_get? {α : Type} (m : GoMap α) (k : Str) (v : α)
    (h : GoMap.get? m k = some v) : (k, v) ∈ m := by
  induction m with
  | nil => simp [GoMap.get?] at h
  | cons e m ih =>
    obtain ⟨k1, v1⟩ := e
    by_cases h1 : k1 = k
    · simp only [GoMap.get?, if_pos h1, Option.some.injEq] at h
      rw [h1, h]
      exact List.mem_cons_self _ _
    · simp only [GoMap.get?, if_neg h1] at h
      exact List.mem_cons_of_mem _ (ih h)

theorem GoMap.exists_of_mem_keys {α : Type} (m : GoMap α) (k : Str)
    (h : k ∈ GoMap.keys m) : ∃ v, (k, v) ∈ m := by
  simp only [GoMap.keys, List.mem_map] at h
  obtain ⟨⟨k1, v⟩, hm, hk⟩ := h
  exact ⟨v, by
    simp only at hk
    rw [← hk]
    exact hm⟩

theorem splitScan_ne_nil (sep : Str) (n : Nat) (cur s : Str) : splitScan sep n cur s ≠ [] := by
  induction s generalizing n cur with
  | nil => simp [splitScan]
  | cons c cs ih =>
    cases n with
    | zero =>
      simp only [splitScan]
      split
      · simp
      · exact ih 0 (c :: cur)
    | succ n =>
      simp only [splitScan]
      exact ih n cur

theorem Split_slash_ne_nil (k : Str) : Split k "/".toList ≠ [] := by
  have h : ¬ "/".toList = [] := by decide
  simp only [Split, if_neg h]
  exact splitScan_ne_nil _ _ _ _

theorem mountSpell_of_ok (ext : ChampionExt) (d : JSONData) (ts : GoMap Str) (k ak tp : Str)
    (h : ext.Calc (chosenTemplate ext d ak) (spellOf d k) = Except.ok tp) :
    mountSpell ext d ts k ak = if tp = [] then (ts, none) else (GoMap.set ts k tp, none) := by
  unfold chosenTemplate spellOf at h
  unfold mountSpell spellTipKey passiveTipKey
  cases hs : (GoMap.get? d.Tooltips
      ("generatedtip_spell_".toList ++ ext.ToLower ak ++ "_tooltipextended".toList)).getD [] with
  | nil =>
    rw [hs] at h
    simp only [List.length_nil, if_true, ne_eq, not_true_eq_false, if_false] at h ⊢
    rw [h]
    cases tp with
    | nil => simp
    | cons c cs => simp
  | cons x xs =>
    rw [hs] at h
    simp only [ne_eq, reduceCtorEq, not_false_eq_true, if_true] at h
    simp only [List.length_cons, Nat.add_one_ne_zero, if_false]
    rw [h]
    cases tp with
    | nil => simp
    | cons c cs => simp

theorem mountSpell_of_error (ext : ChampionExt) (d : JSONData) (ts : GoMap Str) (k ak err : Str)
    (h : ext.Calc (chosenTemplate ext d ak) (spellOf d k) = Except.error err) :
    (mountSpell ext d ts k ak).1 = [] ∧ (mountSpell ext d ts k ak).2 ≠ none := by
  unfold chosenTemplate spellOf at h
  unfold mountSpell spellTipKey passiveTipKey
  cases hs : (GoMap.get? d.Tooltips
      ("generatedtip_spell_".toList ++ ext.ToLower ak ++ "_tooltipextended".toList)).getD [] with
  | nil =>
    rw [hs] at h
    simp only [List.length_nil, if_true, ne_eq, not_true_eq_false, if_false] at h ⊢
    rw [h]
    simp
  | cons x xs =>
    rw [hs] at h
    simp only [ne_eq, reduceCtorEq, not_false_eq_true, if_true] at h
    simp only [List.length_cons, Nat.add_one_ne_zero, if_false]
    rw [h]
    simp

theorem mountStep_of_ability (ext : ChampionExt) (d : JSONData) (ts : GoMap Str) (k : Str)
    (hk : IsAbilityKey k) :
    mountStep ext d ts k = Outcome.ret (mountSpell ext d ts k (abilityId k)) := by
  obtain ⟨hlen, h0, h2⟩ := hk
  have h4 : ∃ ak, (Split k "/".toList)[4]? = some ak := by
    cases h : (Split k "/".toList)[4]? with
    | none =>
      rw [List.getElem?_eq_none_iff] at h
      omega
    | some ak => exact ⟨ak, rfl⟩
  obtain ⟨ak, h4⟩ := h4
  simp only [mountStep, index, h0, h2, h4, hlen, if_true, abilityId, Option.getD_some]

theorem mountStep_of_not_ability (ext : ChampionExt) (d : JSONData) (ts : GoMap Str) (k : Str)
    (r : GoMap Str) (e : Option Str) (hk : ¬ IsAbilityKey k)
    (h : mountStep ext d ts k = Outcome.ret (r, e)) : r = ts ∧ e = none := by
  unfold mountStep index at h
  unfold IsAbilityKey at hk
  cases h0 : (Split k "/".toList)[0]? with
  | none => simp only [h0, reduceCtorEq] at h
  | some s0 =>
    simp only [h0] at h hk
    by_cases hc : s0 = "Characters".toList
    · rw [if_pos hc] at h
      cases h2 : (Split k "/".toList)[2]? with
      | none => simp only [h2, reduceCtorEq] at h
      | some s2 =>
        simp only [h2] at h hk
        by_cases hs : s2 = "Spells".toList
        · rw [if_pos hs] at h
          by_cases hl : (Split k "/".toList).length = 5
          · exact absurd ⟨hl, by rw [hc], by rw [hs]⟩ hk
          · rw [if_neg hl] at h
            simp only [Outcome.ret.injEq, Prod.mk.injEq] at h
            exact ⟨h.1.symm, h.2.symm⟩
        · rw [if_neg hs] at h
          simp only [Outcome.ret.injEq, Prod.mk.injEq] at h
          exact ⟨h.1.symm, h.2.symm⟩
    · rw [if_neg hc] at h
      simp only [Outcome.ret.injEq, Prod.mk.injEq] at h
      exact ⟨h.1.symm, h.2.symm⟩

theorem mountStep_ability_ok (ext : ChampionExt) (d : JSONData) (ts ts1 : GoMap Str) (k : Str)
    (hk : IsAbilityKey k) (h : mountStep ext d ts k = Outcome.ret (ts1, none)) :
    ∃ tp, ext.Calc (chosenTemplate ext d (abilityId k)) (spellOf d k) = Except.ok tp
      ∧ ts1 = if tp = [] then ts else GoMap.set ts k tp := by
  rw [mountStep_of_ability ext d ts k hk] at h
  simp only [Outcome.ret.injEq] at h
  cases hc : ext.Calc (chosenTemplate ext d (abilityId k)) (spellOf d k) with
  | error err =>
    have he := (mountSpell_of_error ext d ts k (abilityId k) err hc).2
    rw [h] at he
    exact absurd rfl he
  | ok tp =>
    refine ⟨tp, rfl, ?_⟩
    rw [mountSpell_of_ok ext d ts k (abilityId k) tp hc] at h
    by_cases htp : tp = []
    · rw [if_pos htp] at h
      rw [if_pos htp]
      exact (Prod.mk.inj h).1.symm
    · rw [if_neg htp] at h
      rw [if_neg htp]
      exact (Prod.mk.inj h).1.symm

theorem mountStep_ok_cases (ext : ChampionExt) (d : JSONData) (ts ts1 : GoMap Str) (k : Str)
    (h : mountStep ext d ts k = Outcome.ret (ts1, none)) :
    ts1 = ts ∨ (IsAbilityKey k ∧ ∃ tp,
      ext.Calc (chosenTemplate ext d (abilityId k)) (spellOf d k) = Except.ok tp
      ∧ tp ≠ [] ∧ ts1 = GoMap.set ts k tp) := by
  by_cases hk : IsAbilityKey k
  · obtain ⟨tp, hc, hts⟩ := mountStep_ability_ok ext d ts ts1 k hk h
    by_cases htp : tp = []
    · rw [if_pos htp] at hts
      exact Or.inl hts
    · rw [if_neg htp] at hts
      exact Or.inr ⟨hk, tp, hc, htp, hts⟩
  · exact Or.inl (mountStep_of_not_ability ext d ts k ts1 none hk h).1

theorem mountStep_error (ext : ChampionExt) (d : JSONData) (ts ts1 : GoMap Str) (k err : Str)
    (h : mountStep ext d ts k = Outcome.ret (ts1, some err)) : ts1 = [] := by
  by_cases hk : IsAbilityKey k
  · rw [mountStep_of_ability ext d ts k hk] at h
    simp only [Outcome.ret.injEq] at h
    cases hc : ext.Calc (chosenTemplate ext d (abilityId k)) (spellOf d k) with
    | error e1 =>
      have he := (mountSpell_of_error ext d ts k (abilityId k) e1 hc).1
      rw [h] at he
      exact he
    | ok tp =>
      rw [mountSpell_of_ok ext d ts k (abilityId k) tp hc] at h
      by_cases htp : tp = []
      · rw [if_pos htp] at h
        exact absurd (Prod.mk.inj h).2 (by simp)
      · rw [if_neg htp] at h
        exact absurd (Prod.mk.inj h).2 (by simp)
  · exact absurd (mountStep_of_not_ability ext d ts k ts1 (some err) hk h).2 (by simp)

theorem mountLoop_cons (ext : ChampionExt) (d : JSONData) (k : Str) (ks : List Str)
    (ts r : GoMap Str) (e : Option Str)
    (h : mountLoop ext d (k :: ks) ts = Outcome.ret (r, e)) :
    (∃ ts1, mountStep ext d ts k = Outcome.ret (ts1, none)
        ∧ mountLoop ext d ks ts1 = Outcome.ret (r, e))
    ∨ (∃ err, mountStep ext d ts k = Outcome.ret (r, some err) ∧ e = some err) := by
  unfold mountLoop at h
  cases hs : mountStep ext d ts k with
  | panic m =>
    rw [hs] at h
    simp only [reduceCtorEq] at h
  | ret p =>
    obtain ⟨ts1, e1⟩ := p
    rw [hs] at h
    cases e1 with
    | none => exact Or.inl ⟨ts1, rfl, h⟩
    | some err =>
      simp only [Outcome.ret.injEq, Prod.mk.injEq] at h
      exact Or.inr ⟨err, by rw [h.1], h.2.symm⟩

theorem mountLoop_resolved (ext : ChampionExt) (d : JSONData) (ks : List Str) :
    ∀ (ts r : GoMap Str) (e : Option Str),
      (∀ k ∈ ks, k ∈ GoMap.keys d.Character) →
      (∀ p ∈ ts, Resolved ext d p.1 p.2) →
      mountLoop ext d ks ts = Outcome.ret (r, e) →
      ∀ p ∈ r, Resolved ext d p.1 p.2 := by
  induction ks with
  | nil =>
    intro ts r e _ hts h
    simp only [mountLoop, Outcome.ret.injEq, Prod.mk.injEq] at h
    rw [← h.1]
    exact hts
  | cons k ks ih =>
    intro ts r e hks hts h
    rcases mountLoop_cons ext d k ks ts r e h with ⟨ts1, hstep, hrest⟩ | ⟨err, hstep, _⟩
    · refine ih ts1 r e (fun k1 hk1 => hks k1 (List.mem_cons_of_mem _ hk1)) ?_ hrest
      rcases mountStep_ok_cases ext d ts ts1 k hstep with h1 | ⟨hk, tp, hc, htp, h1⟩
      · rw [h1]
        exact hts
      · intro p hp
        rw [h1] at hp
        rcases GoMap.mem_set ts k tp p hp with hp | hp
        · exact hts p hp
        · rw [hp]
          exact ⟨hks k (List.mem_cons_self _ _), hk, hc, htp⟩
    · have hr := mountStep_error ext d ts r k err hstep
      rw [hr]
      intro p hp
      exact absurd hp (List.not_mem_nil p)

theorem mount_resolved (ext : ChampionExt) (d : JSONData) (ts : GoMap Str) (e : Option Str)
    (h : mount ext d = Outcome.ret (ts, e)) : ∀ p ∈ ts, Resolved ext d p.1 p.2 :=
  mountLoop_resolved ext d (GoMap.keys d.Character) [] ts e (fun _ hk => hk)
    (fun p hp => absurd hp (List.not_mem_nil p)) h

theorem toTooltip_nil (ext : TtpExt) (sc : SpellCalc) (spl : SpellDataResource) :
    SpellCalc.toTooltip ext sc [] spl = [] := by
  induction sc with
  | nil => rfl
  | cons e sc ih =>
    have hno : ¬ token e.1 <:+: [] := by
      intro h
      exact token_ne_nil e.1 (List.eq_nil_of_infix_nil h)
    have he : toTooltipStep ext spl [] e = [] := toTooltipStep_unchanged ext spl [] e hno
    simp only [SpellCalc.toTooltip, List.foldl_cons, he]
    exact ih

/-- The value that `mount` stores under an ability key whose template resolves
to `tp`: nothing when `tp` is empty. -/
theorem mountStep_get?_other (ext : ChampionExt) (d : JSONData) (ts ts1 : GoMap Str) (k k1 : Str)
    (hne : k ≠ k1) (h : mountStep ext d ts k1 = Outcome.ret (ts1, none)) :
    GoMap.get? ts1 k = GoMap.get? ts k := by
  rcases mountStep_ok_cases ext d ts ts1 k1 h with h1 | ⟨_, tp, _, _, h1⟩
  · rw [h1]
  · rw [h1]
    exact GoMap.get?_set_other ts k1 k tp hne

theorem mountLoop_get?_stable (ext : ChampionExt) (d : JSONData) (k tp : Str)
    (hk : IsAbilityKey k)
    (hc : ext.Calc (chosenTemplate ext d (abilityId k)) (spellOf d k) = Except.ok tp)
    (ks : List Str) :
    ∀ ts r : GoMap Str,
      GoMap.get? ts k = (if tp = [] then none else some tp) →
      mountLoop ext d ks ts = Outcome.ret (r, none) →
      GoMap.get? r k = (if tp = [] then none else some tp) := by
  induction ks with
  | nil =>
    intro ts r hts h
    simp only [mountLoop, Outcome.ret.injEq, Prod.mk.injEq, and_true] at h
    rw [← h]
    exact hts
  | cons k1 ks ih =>
    intro ts r hts h
    rcases mountLoop_cons ext d k1 ks ts r none h with ⟨ts1, hstep, hrest⟩ | ⟨err, _, he⟩
    · refine ih ts1 r ?_ hrest
      by_cases hkk : k = k1
      · subst hkk
        obtain ⟨tp1, hc1, hts1⟩ := mountStep_ability_ok ext d ts ts1 k hk hstep
        rw [hc] at hc1
        have htp : tp = tp1 := Except.ok.inj hc1
        subst htp
        by_cases he : tp = []
        · rw [if_pos he] at hts1
          rw [hts1]
          exact hts
        · rw [if_neg he] at hts1
          rw [hts1, GoMap.get?_set_self, if_neg he]
      · rw [mountStep_get?_other ext d ts ts1 k k1 hkk hstep]
        exact hts
    · exact absurd he (by simp)

theorem mountLoop_get?_of_mem (ext : ChampionExt) (d : JSONData) (k : Str)
    (hk : IsAbilityKey k) (ks : List Str) :
    ∀ ts r : GoMap Str, k ∈ ks → GoMap.get? ts k = none →
      mountLoop ext d ks ts = Outcome.ret (r, none) →
      ∃ tp, ext.Calc (chosenTemplate ext d (abilityId k)) (spellOf d k) = Except.ok tp
        ∧ GoMap.get? r k = (if tp = [] then none else some tp) := by
  induction ks with
  | nil =>
    intro ts r hmem
    exact absurd hmem (List.not_mem_nil k)
  | cons k1 ks ih =>
    intro ts r hmem hts h
    rcases mountLoop_cons ext d k1 ks ts r none h with ⟨ts1, hstep, hrest⟩ | ⟨err, _, he⟩
    · by_cases hkk : k = k1
      · subst hkk
        obtain ⟨tp, hc, hts1⟩ := mountStep_ability_ok ext d ts ts1 k hk hstep
        refine ⟨tp, hc, mountLoop_get?_stable ext d k tp hk hc ks ts1 r ?_ hrest⟩
        by_cases he : tp = []
        · rw [if_pos he] at hts1
          rw [hts1, if_pos he]
          exact hts
        · rw [if_neg he] at hts1
          rw [hts1, GoMap.get?_set_self, if_neg he]
      · have hmem1 : k ∈ ks := by
          rcases List.mem_cons.mp hmem with h1 | h1
          · exact absurd h1 hkk
          · exact h1
        refine ih ts1 r hmem1 ?_ hrest
        rw [mountStep_get?_other ext d ts ts1 k k1 hkk hstep]
        exact hts
    · exact absurd he (by simp)

theorem mountStep_returns (ext : ChampionExt) (d : JSONData) (ts : GoMap Str) (k : Str)
    (hshape : (Split k "/".toList)[0]? = some "Characters".toList →
      3 ≤ (Split k "/".toList).length)
    (hcalc : ∀ t spl, ∃ tp, ext.Calc t spl = Except.ok tp) :
    ∃ ts1, mountStep ext d ts k = Outcome.ret (ts1, none) := by
  by_cases hk : IsAbilityKey k
  · obtain ⟨tp, hc⟩ := hcalc (chosenTemplate ext d (abilityId k)) (spellOf d k)
    rw [mountStep_of_ability ext d ts k hk, mountSpell_of_ok ext d ts k (abilityId k) tp hc]
    by_cases he : tp = []
    · exact ⟨ts, by rw [if_pos he]⟩
    · exact ⟨GoMap.set ts k tp, by rw [if_neg he]⟩
  · refine ⟨ts, ?_⟩
    unfold IsAbilityKey at hk
    unfold mountStep index
    cases h0 : (Split k "/".toList)[0]? with
    | none =>
      rw [List.getElem?_eq_none_iff] at h0
      have := List.length_pos.mpr (Split_slash_ne_nil k)
      omega
    | some s0 =>
      simp only [h0]
      by_cases hc : s0 = "Characters".toList
      · rw [if_pos hc]
        have h3 := hshape (by rw [h0, hc])
        cases h2 : (Split k "/".toList)[2]? with
        | none =>
          rw [List.getElem?_eq_none_iff] at h2
          omega
        | some s2 =>
          simp only [h2]
          by_cases hs : s2 = "Spells".toList
          · rw [if_pos hs]
            by_cases hl : (Split k "/".toList).length = 5
            · exact absurd ⟨hl, by rw [h0, hc], by rw [h2, hs]⟩ hk
            · rw [if_neg hl]
          · rw [if_neg hs]
      · rw [if_neg hc]

theorem mountLoop_returns (ext : ChampionExt) (d : JSONData) (ks : List Str)
    (hshape : ∀ k ∈ ks, (Split k "/".toList)[0]? = some "Characters".toList →
      3 ≤ (Split k "/".toList).length)
    (hcalc : ∀ t spl, ∃ tp, ext.Calc t spl = Except.ok tp) :
    ∀ ts, ∃ r, mountLoop ext d ks ts = Outcome.ret (r, none) := by
  induction ks with
  | nil =>
    intro ts
    exact ⟨ts, rfl⟩
  | cons k ks ih =>
    intro ts
    obtain ⟨ts1, h1⟩ := mountStep_returns ext d ts k (hshape k (List.mem_cons_self _ _)) hcalc
    obtain ⟨r, hr⟩ := ih (fun k1 hk1 => hshape k1 (List.mem_cons_of_mem _ hk1)) ts1
    refine ⟨r, ?_⟩
    unfold mountLoop
    rw [h1]
    exact hr

/-! ## Tooltip assembler: claims C6 to C8 -/

/-- C6 (the code fails the claim): on a model whose only key is
`Characters/Aatrox`, or `Characters`, mount panics with an index out of range
instead of ignoring the key, whatever the collaborators: `sp[2]` is read
before `len(sp) == 5` is tested. When mount does return, every key of its
result is a key of `d.Character` with the ability pattern. -/
theorem mount_panics_on_short_key (ext : ChampionExt) :
    mount ext shortKeyData = Outcome.panic "index out of range".toList
    ∧ mount ext oneSegmentData = Outcome.panic "index out of range".toList
    ∧ (∀ (d : JSONData) (ts : GoMap Str) (err : Option Str),
        mount ext d = Outcome.ret (ts, err) →
        ∀ k ∈ GoMap.keys ts, k ∈ GoMap.keys d.Character ∧ IsAbilityKey k) := by
  refine ⟨rfl, rfl, ?_⟩
  intro d ts err h k hk
  obtain ⟨v, hv⟩ := GoMap.exists_of_mem_keys ts k hk
  have hr := mount_resolved ext d ts err h (k, v) hv
  exact ⟨hr.1, hr.2.1⟩

/-- C7: no value of the map returned by mount is the empty string; and a key
with the ability pattern for which neither the spell nor the passive template
is in the tooltip table is not a key of the result, provided `Calc` (whose
source is not part of the development) leaves the empty template empty. -/
theorem mount_values_nonempty (ext : ChampionExt) (d : JSONData) (ts : GoMap Str)
    (err : Option Str) (h : mount ext d = Outcome.ret (ts, err)) :
    (∀ k v, (k, v) ∈ ts → v ≠ [])
    ∧ (∀ k C I Id : Str,
        Split k "/".toList = ["Characters".toList, C, "Spells".toList, I, Id] →
        GoMap.get? d.Tooltips
          ("generatedtip_spell_".toList ++ ext.ToLower Id ++ "_tooltipextended".toList) = none →
        GoMap.get? d.Tooltips
          ("generatedtip_passive_".toList ++ ext.ToLower Id ++ "_tooltipextended".toList) = none →
        (∀ spl t, ext.Calc [] spl = Except.ok t → t = []) →
        k ∉ GoMap.keys ts ∧ GoMap.get? ts k = none) := by
  have hres := mount_resolved ext d ts err h
  constructor
  · intro k v hkv
    exact (hres (k, v) hkv).2.2.2
  · intro k C I Id hsplit hspell hpassive hcalc
    have hnot : k ∉ GoMap.keys ts := by
      intro hk
      obtain ⟨v, hv⟩ := GoMap.exists_of_mem_keys ts k hk
      have hr : Resolved ext d k v := hres (k, v) hv
      obtain ⟨_, _, hc, hne⟩ := hr
      have hid : abilityId k = Id := by
        unfold abilityId
        rw [hsplit]
        rfl
      have htpl : chosenTemplate ext d Id = [] := by
        unfold chosenTemplate
        rw [hspell, hpassive]
        rfl
      rw [hid, htpl] at hc
      exact hne (hcalc _ _ hc)
    exact ⟨hnot, GoMap.get?_eq_none_of_not_mem ts k hnot⟩

/-- Witness of C7: the sample model, in which `AatroxW` has no template. -/
theorem mount_values_nonempty_witness :
    mount sampleExt sampleData = Outcome.ret
      ([("Characters/Aatrox/Spells/AatroxQAbility/AatroxQ".toList, "Deals 80 magic damage.".toList),
        ("Characters/Aatrox/Spells/AatroxPassiveAbility/AatroxPassive".toList, "Heals.".toList)],
       none)
    ∧ "Characters/Aatrox/Spells/AatroxWAbility/AatroxW".toList ∉ GoMap.keys
        [("Characters/Aatrox/Spells/AatroxQAbility/AatroxQ".toList, "Deals 80 magic damage.".toList),
         ("Characters/Aatrox/Spells/AatroxPassiveAbility/AatroxPassive".toList, "Heals.".toList)] :=
  ⟨by decide,
    ((mount_values_nonempty sampleExt sampleData _ none (by decide)).2
      "Characters/Aatrox/Spells/AatroxWAbility/AatroxW".toList
      "Aatrox".toList "AatroxWAbility".toList "AatroxW".toList (by decide) (by decide) (by decide)
      (fun spl t ht => by
        have h0 : sampleExt.Calc [] spl = Except.ok [] := by
          show Tooltip.Calc sampleTtpExt [] spl = Except.ok []
          simp only [Tooltip.Calc, toTooltip_nil]
        rw [h0] at ht
        exact (Except.ok.inj ht).symm)).1⟩

/-- C8: for an ability key `Characters/C/Spells/I/Id` of the model, the template
that mount resolves is the entry `generatedtip_spell_<id>_tooltipextended` of
the tooltip table when it is a non-empty string and otherwise the entry
`generatedtip_passive_<id>_tooltipextended`, `<id>` being `Id` in lower case
(this is `chosenTemplate`): whenever mount succeeds, `Calc` succeeds on that
template with the spell of the key, and the result holds its outcome under the
key when it is not empty and nothing otherwise. Mount succeeds when no key
whose first segment is `Characters` has fewer than three segments and `Calc`
never fails. -/
theorem mount_resolves_spell_then_passive (ext : ChampionExt) (d : JSONData) (k C I Id : Str)
    (hk : k ∈ GoMap.keys d.Character)
    (hsplit : Split k "/".toList = ["Characters".toList, C, "Spells".toList, I, Id]) :
    (∀ ts, mount ext d = Outcome.ret (ts, none) →
      ∃ tp, ext.Calc (chosenTemplate ext d Id) (spellOf d k) = Except.ok tp
        ∧ GoMap.get? ts k = (if tp = [] then none else some tp))
    ∧ ((∀ k1 ∈ GoMap.keys d.Character,
          (Split k1 "/".toList)[0]? = some "Characters".toList →
          3 ≤ (Split k1 "/".toList).length) →
        (∀ t spl, ∃ tp, ext.Calc t spl = Except.ok tp) →
        ∃ ts, mount ext d = Outcome.ret (ts, none)) := by
  have hab : IsAbilityKey k := by
    unfold IsAbilityKey
    rw [hsplit]
    exact ⟨rfl, rfl, rfl⟩
  have hid : abilityId k = Id := by
    unfold abilityId
    rw [hsplit]
    rfl
  constructor
  · intro ts h
    have := mountLoop_get?_of_mem ext d k hab (GoMap.keys d.Character) [] ts hk rfl h
    rw [hid] at this
    exact this
  · intro hshape hcalc
    exact mountLoop_returns ext d (GoMap.keys d.Character) hshape hcalc []

/-- Witness of C8: in the sample model `AatroxQ` has both templates and the
spell one is resolved; `AatroxPassive` has only the passive one. -/
theorem mount_resolves_spell_then_passive_witness :
    chosenTemplate sampleExt sampleData "AatroxQ".toList = "Deals @Damage@ magic damage.".toList
    ∧ chosenTemplate sampleExt sampleData "AatroxPassive".toList = "Heals.".toList
    ∧ (∃ ts, mount sampleExt sampleData = Outcome.ret (ts, none)
        ∧ GoMap.get? ts "Characters/Aatrox/Spells/AatroxQAbility/AatroxQ".toList
            = some "Deals 80 magic damage.".toList) :=
  ⟨by decide, by decide,
    by
      have hw := mount_resolves_spell_then_passive sampleExt sampleData
        "Characters/Aatrox/Spells/AatroxQAbility/AatroxQ".toList
        "Aatrox".toList "AatroxQAbility".toList "AatroxQ".toList (by decide) (by decide)
      obtain ⟨ts, hts⟩ := hw.2
        (by
          intro k1 hk1
          simp only [sampleData, GoMap.keys, List.map_cons, List.map_nil, List.mem_cons,
            List.mem_nil_iff, or_false] at hk1
          rcases hk1 with rfl | rfl | rfl | rfl <;> decide)
        (fun t spl => ⟨_, rfl⟩)
      obtain ⟨tp, htp, hget⟩ := hw.1 ts hts
      have hval : sampleExt.Calc (chosenTemplate sampleExt sampleData "AatroxQ".toList)
          (spellOf sampleData "Characters/Aatrox/Spells/AatroxQAbility/AatroxQ".toList)
          = Except.ok "Deals 80 magic damage.".toList := rfl
      rw [hval] at htp
      have : tp = "Deals 80 magic damage.".toList := (Except.ok.inj htp).symm
      subst this
      exact ⟨ts, hts, hget.trans (by decide)⟩⟩

/-! ## Document normalizer and differencer: claims C9 and C10 -/

theorem GoMap.mem_delete {α : Type} (m : GoMap α) (k0 : Str) (e : Str × α) :
    e ∈ GoMap.delete m k0 ↔ e ∈ m ∧ e.1 ≠ k0 := by
  simp [GoMap.delete, List.mem_filter]

theorem GoMap.mem_keys_delete {α : Type} (m : GoMap α) (k0 k : Str) :
    k ∈ GoMap.keys (GoMap.delete m k0) ↔ k ∈ GoMap.keys m ∧ k ≠ k0 := by
  simp only [GoMap.keys, List.mem_map]
  constructor
  · rintro ⟨e, he, rfl⟩
    rw [GoMap.mem_delete] at he
    exact ⟨⟨e, he.1, rfl⟩, he.2⟩
  · rintro ⟨⟨e, he, rfl⟩, hne⟩
    exact ⟨e, (GoMap.mem_delete m k0 e).mpr ⟨he, hne⟩, rfl⟩

theorem decodeMap_keys {β : Type} (f : Json → Except Str β) (m : GoMap Json) :
    ∀ r, decodeMap f m = Except.ok r → GoMap.keys r = GoMap.keys m := by
  induction m with
  | nil =>
    intro r h
    simp only [decodeMap, Except.ok.injEq] at h
    rw [← h]
    rfl
  | cons e m ih =>
    obtain ⟨k, v⟩ := e
    intro r h
    unfold decodeMap at h
    cases hf : f v with
    | error err =>
      rw [hf] at h
      simp only [reduceCtorEq] at h
    | ok b =>
      rw [hf] at h
      cases hm : decodeMap f m with
      | error err =>
        rw [hm] at h
        simp only [reduceCtorEq] at h
      | ok r1 =>
        rw [hm] at h
        simp only [Except.ok.injEq] at h
        rw [← h]
        simp only [GoMap.keys, List.map_cons]
        have := ih r1 hm
        simp only [GoMap.keys] at this
        rw [this]

theorem decodeMap_ok {β : Type} (f : Json → Except Str β) (m : GoMap Json)
    (h : ∀ e ∈ m, ∃ b, f e.2 = Except.ok b) : ∃ r, decodeMap f m = Except.ok r := by
  induction m with
  | nil => exact ⟨[], rfl⟩
  | cons e m ih =>
    obtain ⟨k, v⟩ := e
    obtain ⟨b, hb⟩ := h (k, v) (List.mem_cons_self _ _)
    obtain ⟨r, hr⟩ := ih (fun e he => h e (List.mem_cons_of_mem _ he))
    refine ⟨(k, b) :: r, ?_⟩
    unfold decodeMap
    simp only at hb
    rw [hb, hr]

/-- What `decode` keeps: when the document parses to `doc` and `decode`
succeeds, the keys of `Character` are the top-level keys of `doc` other than
`tooltips`, in the same order. -/
theorem decode_character_keys (ext : ChampionExt) (d : Bytes) (doc : GoMap Json) (r : JSONData)
    (hdoc : ext.Unmarshal d = Except.ok doc) (h : decode ext d = (r, none)) :
    GoMap.keys r.Character = GoMap.keys (GoMap.delete doc "tooltips".toList) := by
  unfold decode at h
  rw [hdoc] at h
  simp only [mapstructureDecode] at h
  cases hc : decodeMap ext.decodeSpellObject (GoMap.delete doc "tooltips".toList) with
  | error err =>
    rw [hc] at h
    simp at h
  | ok rc =>
    rw [hc] at h
    simp only at h
    split at h
    · simp at h
    · rename_i res hres
      split at hres
      · simp at hres
      · simp only [Except.ok.injEq] at hres
        simp only [Prod.mk.injEq, and_true] at h
        rw [← h, ← hres]
        exact decodeMap_keys _ _ rc hc

theorem not_isAbilityKey_tooltips : ¬ IsAbilityKey "tooltips".toList := by
  decide

/-- Counterexample to C9 as stated: the export `recordsDoc` is a top-level
mapping with a `tooltips` entry; decode succeeds on it and the ability mapping
it returns has the key `Characters/Aatrox/CharacterRecords/Root`, which does
not match the 5-segment ability pattern. -/
theorem decode_keeps_non_ability_key :
    recordsExt.Unmarshal [0] = Except.ok recordsDoc
    ∧ (decode recordsExt [0]).2 = none
    ∧ GoMap.keys (decode recordsExt [0]).1.Character
        = ["Characters/Aatrox/Spells/AatroxQAbility/AatroxQ".toList,
           "Characters/Aatrox/CharacterRecords/Root".toList]
    ∧ "Characters/Aatrox/CharacterRecords/Root".toList
        ∈ GoMap.keys (decode recordsExt [0]).1.Character
    ∧ ¬ IsAbilityKey "Characters/Aatrox/CharacterRecords/Root".toList := by
  refine ⟨rfl, rfl, by decide, by decide, by decide⟩

/-- C9, amended: when the document parses to the top-level mapping `doc` and
decode succeeds, the keys of the ability mapping it returns are exactly the
top-level keys of `doc` other than `tooltips`, whatever their shape; so every
key of `doc` that matches the ability pattern is a key of the mapping, and so
is every other key that is not `tooltips`. Decode succeeds when every entry
other than `tooltips` decodes to a spell object and every entry of the
`tooltips` mapping decodes to a string. -/
theorem decode_keeps_every_other_key (ext : ChampionExt) (d : Bytes) (doc : GoMap Json)
    (hdoc : ext.Unmarshal d = Except.ok doc) :
    (∀ r, decode ext d = (r, none) →
      (∀ k, k ∈ GoMap.keys r.Character ↔ (k ∈ GoMap.keys doc ∧ k ≠ "tooltips".toList))
      ∧ (∀ k, IsAbilityKey k → (k ∈ GoMap.keys r.Character ↔ k ∈ GoMap.keys doc)))
    ∧ ((∀ e ∈ doc, e.1 ≠ "tooltips".toList → ∃ o, ext.decodeSpellObject e.2 = Except.ok o) →
        (∀ e ∈ tooltipsEntry doc, ∃ s, ext.decodeString e.2 = Except.ok s) →
        ∃ r, decode ext d = (r, none)) := by
  constructor
  · intro r h
    have hkeys : ∀ k, k ∈ GoMap.keys r.Character ↔ (k ∈ GoMap.keys doc ∧ k ≠ "tooltips".toList) := by
      intro k
      rw [decode_character_keys ext d doc r hdoc h, GoMap.mem_keys_delete]
    refine ⟨hkeys, ?_⟩
    intro k hab
    rw [hkeys]
    constructor
    · exact fun hk => hk.1
    · intro hk
      refine ⟨hk, ?_⟩
      intro hkt
      rw [hkt] at hab
      exact not_isAbilityKey_tooltips hab
  · intro hobj htt
    obtain ⟨rc, hrc⟩ := decodeMap_ok ext.decodeSpellObject (GoMap.delete doc "tooltips".toList)
      (fun e he => by
        rw [GoMap.mem_delete] at he
        exact hobj e he.1 he.2)
    obtain ⟨rt, hrt⟩ := decodeMap_ok ext.decodeString (tooltipsEntry doc) htt
    refine ⟨{ Character := rc, Tooltips := rt }, ?_⟩
    unfold tooltipsEntry at hrt
    unfold decode
    rw [hdoc]
    simp only [mapstructureDecode, hrc, hrt]

/-- Witness of C9 as amended: the export `recordsDoc`, whose ability key and
character record are both kept and whose `tooltips` key is not. -/
theorem decode_keeps_every_other_key_witness :
    recordsExt.Unmarshal [0] = Except.ok recordsDoc
    ∧ (∃ r, decode recordsExt [0] = (r, none))
    ∧ ∀ k, k ∈ GoMap.keys (decode recordsExt [0]).1.Character
        ↔ (k ∈ GoMap.keys recordsDoc ∧ k ≠ "tooltips".toList) := by
  have h := decode_keeps_every_other_key recordsExt [0] recordsDoc rfl
  have hret : ∃ r, decode recordsExt [0] = (r, none) :=
    h.2
      (by
        intro e he _
        simp only [recordsDoc, List.mem_cons, List.mem_nil_iff, or_false] at he
        rcases he with rfl | rfl | rfl <;> exact ⟨_, rfl⟩)
      (by
        intro e he
        have hentry : tooltipsEntry recordsDoc
            = [("generatedtip_spell_aatroxq_tooltipextended".toList, Json.str "Slash.".toList)] :=
          rfl
        rw [hentry, List.mem_singleton] at he
        rw [he]
        exact ⟨_, rfl⟩)
  exact ⟨rfl, hret, (h.1 (decode recordsExt [0]).1 rfl).1⟩

/-- C10: for a champion whose name is in the denylist, PrepareDiff returns the
empty diffResult (empty name, nil keys, nil live and pbe maps, nil diff) and
the nil error, and has made no call: neither LoadAndDiff, nor the loads and
the structural diff under it, nor decode, nor mount. -/
theorem PrepareDiff_denylisted (ext : ChampionExt) (c : Champion) (dir outputDir : Str)
    (h : c.Name ∈ blacklist) :
    (c.PrepareDiff ext dir outputDir).calls = []
    ∧ (c.PrepareDiff ext dir outputDir).out = Outcome.ret
        ({ Champion := { Name := [] }, Keys := none, Live := none, PBE := none, Diff := none },
          none) := by
  have hany : blacklist.any (fun bc => decide (bc = c.Name)) = true :=
    List.any_eq_true.mpr ⟨c.Name, h, decide_eq_true rfl⟩
  unfold Champion.PrepareDiff
  rw [if_pos hany]
  exact ⟨rfl, rfl⟩

/-- Witness of C10: the champion `yuumi`, with collaborators that would
succeed if they were called. -/
theorem PrepareDiff_denylisted_witness :
    yuumi.Name ∈ blacklist
    ∧ (yuumi.PrepareDiff sampleDocExt "data".toList "out".toList).calls = []
    ∧ (yuumi.PrepareDiff sampleDocExt "data".toList "out".toList).out = Outcome.ret
        ({ Champion := { Name := [] }, Keys := none, Live := none, PBE := none, Diff := none },
          none) :=
  ⟨by decide, PrepareDiff_denylisted sampleDocExt yuumi "data".toList "out".toList (by decide)⟩

/-! ## Lemmas on the key-extraction loop -/

theorem extractStep_ret (keys : List Str) (name key : Str) (keys1 : List Str) (name1 : Str)
    (h : extractStep (keys, name) key = Outcome.ret (keys1, name1)) :
    keys1 = keys ++ changedKeys [key]
    ∧ name1 = (if (Split key "/".toList)[0]? = some "Characters".toList ∧ name = []
        then secondSegment key else name)
    ∧ ((Split key "/".toList)[0]? = some "Characters".toList → name = [] →
        2 ≤ (Split key "/".toList).length) := by
  unfold extractStep index at h
  cases h0 : (Split key "/".toList)[0]? with
  | none => simp only [h0, reduceCtorEq] at h
  | some s0 =>
    simp only [h0] at h
    cases hk : key[0]? with
    | none =>
      simp only [hk] at h
      split at h <;> simp only [reduceCtorEq] at h
    | some c0 =>
      have hhead : key.head? = some c0 := by
        cases key with
        | nil => simp at hk
        | cons c cs =>
          simp only [List.getElem?_cons_zero, Option.some.injEq] at hk
          simp [hk]
      have hkeys : ∀ nm : Str,
          (if c0 ≠ '\x7b' then Outcome.ret (keys ++ [key], nm) else Outcome.ret (keys, nm))
            = Outcome.ret (keys1, name1) →
          keys1 = keys ++ changedKeys [key] ∧ name1 = nm := by
        intro nm hnm
        by_cases hc : c0 = '\x7b'
        · have hn : ¬ c0 ≠ '\x7b' := fun hne => hne hc
          rw [if_neg hn] at hnm
          simp only [Outcome.ret.injEq, Prod.mk.injEq] at hnm
          refine ⟨?_, hnm.2.symm⟩
          rw [← hnm.1]
          simp [changedKeys, hhead, hc]
        · rw [if_pos hc] at hnm
          simp only [Outcome.ret.injEq, Prod.mk.injEq] at hnm
          refine ⟨?_, hnm.2.symm⟩
          rw [← hnm.1]
          simp [changedKeys, hhead, hc]
      simp only [hk] at h
      by_cases hcond : s0 = "Characters".toList ∧ name.length = 0
      · rw [if_pos hcond] at h
        have hnil : name = [] := List.length_eq_zero.mp hcond.2
        cases h1 : (Split key "/".toList)[1]? with
        | none => simp only [h1, reduceCtorEq] at h
        | some s1 =>
          simp only [h1] at h
          obtain ⟨hk1, hn1⟩ := hkeys s1 h
          refine ⟨hk1, ?_, ?_⟩
          · rw [if_pos ⟨by rw [hcond.1], hnil⟩, hn1]
            unfold secondSegment
            rw [h1]
            rfl
          · intro _ _
            have hlt := (List.getElem?_eq_some_iff.mp h1).1
            omega
      · rw [if_neg hcond] at h
        simp only at h
        obtain ⟨hk1, hn1⟩ := hkeys name h
        have hcond2 : ¬ (some s0 = some "Characters".toList ∧ name = []) := by
          rintro ⟨h1, h2⟩
          exact hcond ⟨Option.some.inj h1, by rw [h2]; rfl⟩
        refine ⟨hk1, ?_, ?_⟩
        · rw [if_neg hcond2, hn1]
        · intro h1 h2
          exact absurd ⟨h1, h2⟩ hcond2

theorem changedKeys_cons (key : Str) (rest : List Str) :
    changedKeys (key :: rest) = changedKeys [key] ++ changedKeys rest := by
  unfold changedKeys
  rw [← List.filter_append]
  rfl

theorem characterName_cons (key : Str) (rest : List Str) :
    characterName (key :: rest)
      = if NamesCharacter key then secondSegment key else characterName rest := by
  unfold characterName
  by_cases h : NamesCharacter key
  · rw [if_pos h]
    simp only [List.find?_cons, decide_eq_true h]
  · rw [if_neg h]
    simp only [List.find?_cons, decide_eq_false h]

theorem extractLoop_cons (key : Str) (rest : List Str) (st st2 : List Str × Str)
    (h : extractLoop (key :: rest) st = Outcome.ret st2) :
    ∃ st1, extractStep st key = Outcome.ret st1 ∧ extractLoop rest st1 = Outcome.ret st2 := by
  unfold extractLoop at h
  cases hs : extractStep st key with
  | panic m =>
    rw [hs] at h
    simp only [reduceCtorEq] at h
  | ret st1 =>
    rw [hs] at h
    exact ⟨st1, rfl, h⟩

theorem extractLoop_ret (ks : List Str) :
    ∀ (keys0 : List Str) (name0 : Str) (keys : List Str) (name : Str),
      extractLoop ks (keys0, name0) = Outcome.ret (keys, name) →
      keys = keys0 ++ changedKeys ks
      ∧ name = (if name0 = [] then characterName ks else name0) := by
  induction ks with
  | nil =>
    intro keys0 name0 keys name h
    simp only [extractLoop, Outcome.ret.injEq, Prod.mk.injEq] at h
    refine ⟨?_, ?_⟩
    · rw [← h.1]
      simp [changedKeys]
    · rw [← h.2]
      by_cases hn : name0 = []
      · rw [if_pos hn, hn]
        rfl
      · rw [if_neg hn]
  | cons key rest ih =>
    intro keys0 name0 keys name h
    obtain ⟨⟨keys1, name1⟩, hstep, hrest⟩ := extractLoop_cons key rest _ _ h
    obtain ⟨hk1, hn1, _⟩ := extractStep_ret keys0 name0 key keys1 name1 hstep
    obtain ⟨hk, hn⟩ := ih keys1 name1 keys name hrest
    refine ⟨?_, ?_⟩
    · rw [hk, hk1, changedKeys_cons key rest, List.append_assoc]
    · rw [hn, characterName_cons]
      by_cases hn0 : name0 = []
      · rw [if_pos hn0]
        by_cases hc : (Split key "/".toList)[0]? = some "Characters".toList
        · rw [if_pos ⟨hc, hn0⟩] at hn1
          by_cases hs : secondSegment key = []
          · have hnc : ¬ NamesCharacter key := fun hnc => hnc.2 hs
            rw [if_neg hnc, if_pos (hn1.trans hs)]
          · have hnc : NamesCharacter key := ⟨hc, hs⟩
            rw [if_pos hnc, if_neg (by rw [hn1]; exact hs), hn1]
        · have hcond : ¬ ((Split key "/".toList)[0]? = some "Characters".toList ∧ name0 = []) :=
            fun hcond => hc hcond.1
          rw [if_neg hcond] at hn1
          have hnc : ¬ NamesCharacter key := fun hnc => hc hnc.1
          rw [if_neg hnc, if_pos (hn1.trans hn0)]
      · have hcond : ¬ ((Split key "/".toList)[0]? = some "Characters".toList ∧ name0 = []) :=
          fun hcond => hn0 hcond.2
        rw [if_neg hcond] at hn1
        rw [if_neg hn0, if_neg (by rw [hn1]; exact hn0), hn1]

theorem extractStep_returns (st : List Str × Str) (key : Str) (hne : key ≠ [])
    (hseg : (Split key "/".toList)[0]? = some "Characters".toList →
      2 ≤ (Split key "/".toList).length) :
    ∃ st1, extractStep st key = Outcome.ret st1 := by
  unfold extractStep index
  cases h0 : (Split key "/".toList)[0]? with
  | none =>
    rw [List.getElem?_eq_none_iff] at h0
    have := List.length_pos.mpr (Split_slash_ne_nil key)
    omega
  | some s0 =>
    obtain ⟨c0, cs, hkey⟩ : ∃ c0 cs, key = c0 :: cs := by
      cases key with
      | nil => exact absurd rfl hne
      | cons c cs => exact ⟨c, cs, rfl⟩
    have hk : key[0]? = some c0 := by
      rw [hkey]
      exact List.getElem?_cons_zero
    simp only [hk]
    by_cases hcond : s0 = "Characters".toList ∧ st.2.length = 0
    · rw [if_pos hcond]
      have h2 := hseg (by rw [h0, hcond.1])
      cases h1 : (Split key "/".toList)[1]? with
      | none =>
        rw [List.getElem?_eq_none_iff] at h1
        omega
      | some s1 =>
        simp only
        split
        · exact ⟨_, rfl⟩
        · exact ⟨_, rfl⟩
    · rw [if_neg hcond]
      simp only
      split
      · exact ⟨_, rfl⟩
      · exact ⟨_, rfl⟩

theorem extractLoop_returns (ks : List Str)
    (hks : ∀ key ∈ ks, key ≠ [] ∧ ((Split key "/".toList)[0]? = some "Characters".toList →
      2 ≤ (Split key "/".toList).length)) :
    ∀ st, ∃ st2, extractLoop ks st = Outcome.ret st2 := by
  induction ks with
  | nil =>
    intro st
    exact ⟨st, rfl⟩
  | cons key rest ih =>
    intro st
    obtain ⟨hne, hseg⟩ := hks key (List.mem_cons_self _ _)
    obtain ⟨st1, h1⟩ := extractStep_returns st key hne hseg
    obtain ⟨st2, h2⟩ := ih (fun k hk => hks k (List.mem_cons_of_mem _ hk)) st1
    refine ⟨st2, ?_⟩
    unfold extractLoop
    rw [h1]
    exact h2

/-! ## Lemmas on `PrepareDiff` -/

theorem blacklist_any_false (c : Champion) (h : c.Name ∉ blacklist) :
    blacklist.any (fun bc => decide (bc = c.Name)) = false := by
  rw [Bool.eq_false_iff]
  intro hany
  obtain ⟨bc, hbc, heq⟩ := List.any_eq_true.mp hany
  exact h (of_decide_eq_true heq ▸ hbc)

theorem LoadAndDiff_ok (ext : ChampionExt) (c : Champion) (dir : Str) (live pbe : Bytes)
    (dl : ext.Diff) (diff : GoMap Json)
    (hlive : ext.Load c dir ext.LatestFile = Except.ok live)
    (hpbe : ext.Load c dir ext.PBEFile = Except.ok pbe)
    (hcmp : ext.Compare live pbe = Except.ok dl)
    (hfmt : ext.FormatAsJson dl = Except.ok diff) :
    c.LoadAndDiff ext dir
      = ([Call.Load ext.LatestFile, Call.Load ext.PBEFile, Call.Compare, Call.FormatAsJson],
          (some diff, some live, some pbe, none)) := by
  simp only [Champion.LoadAndDiff, doDiff, hlive, hpbe, hcmp, hfmt]

/-- What a successful run of `PrepareDiff` went through, for a champion that is
not in the denylist. -/
theorem PrepareDiff_ok (ext : ChampionExt) (c : Champion) (dir outputDir : Str)
    (res : diffResult) (hbl : c.Name ∉ blacklist)
    (h : (c.PrepareDiff ext dir outputDir).out = Outcome.ret (res, none)) :
    ∃ inner diffs ld pd keys name live pbe lttps pttps,
      c.LoadAndDiff ext dir = (inner, (diffs, ld, pd, none))
      ∧ extractLoop (GoMap.keys (diffs.getD [])) ([], []) = Outcome.ret (keys, name)
      ∧ decode ext (ld.getD []) = (live, none)
      ∧ decode ext (pd.getD []) = (pbe, none)
      ∧ mount ext (ext.visit 0 live) = Outcome.ret (lttps, none)
      ∧ mount ext (ext.visit 1 pbe) = Outcome.ret (pttps, none)
      ∧ res = { Champion := { Name := name }, Live := some lttps, PBE := some pttps,
                Keys := some keys, Diff := diffs } := by
  unfold Champion.PrepareDiff at h
  rw [blacklist_any_false c hbl] at h
  simp only [Bool.false_eq_true, if_false] at h
  split at h
  · simp at h
  · rename_i inner diffs ld pd hLD
    split at h
    · simp at h
    · rename_i keys name hEx
      split at h
      · simp at h
      · rename_i live hD1
        split at h
        · simp at h
        · rename_i pbe hD2
          split at h
          · simp at h
          · simp at h
          · rename_i lttps hM1
            split at h
            · simp at h
            · simp at h
            · rename_i pttps hM2
              simp only [Outcome.ret.injEq, Prod.mk.injEq, and_true] at h
              exact ⟨inner, diffs, ld, pd, keys, name, live, pbe, lttps, pttps,
                hLD, hEx, hD1, hD2, hM1, hM2, h.symm⟩

/-! ## Version differencer: claims C11 to C13 and C18 -/

/-- C11 (the code fails the claim): on a delta one of whose top-level keys is
the empty string the key-extraction loop panics with an index out of range at
`key[0]`, and so does PrepareDiff; it also panics on the key `Characters`, at
`strings.Split(key, "/")[1]`. When the loop does complete, the collected keys
are the keys of the delta that do not begin with the sentinel character, each
once and in visiting order, and PrepareDiff returns them as Keys. -/
theorem extractLoop_panics_on_empty_key :
    extractLoop (GoMap.keys emptyKeyDelta) ([], []) = Outcome.panic "index out of range".toList
    ∧ (aatrox.PrepareDiff (twoFilesExt emptyKeyDelta) "data".toList "out".toList).out
        = Outcome.panic "index out of range".toList
    ∧ extractLoop (GoMap.keys charactersKeyDelta) ([], [])
        = Outcome.panic "index out of range".toList
    ∧ (∀ (ks keys : List Str) (name : Str),
        extractLoop ks ([], []) = Outcome.ret (keys, name) →
        keys = changedKeys ks
        ∧ (∀ key, key ∈ keys ↔ key ∈ ks ∧ key.head? ≠ some '\x7b')
        ∧ (ks.Nodup → keys.Nodup))
    ∧ (∀ (ext : ChampionExt) (c : Champion) (dir outputDir : Str) (res : diffResult),
        c.Name ∉ blacklist →
        (c.PrepareDiff ext dir outputDir).out = Outcome.ret (res, none) →
        res.Keys = some (changedKeys (GoMap.keys ((c.LoadAndDiff ext dir).2.1.getD [])))) := by
  refine ⟨rfl, rfl, rfl, ?_, ?_⟩
  · intro ks keys name h
    have hk : keys = changedKeys ks := by
      have := (extractLoop_ret ks [] [] keys name h).1
      rw [this]
      rfl
    refine ⟨hk, ?_, ?_⟩
    · intro key
      rw [hk]
      simp [changedKeys, List.mem_filter]
    · intro hnd
      rw [hk]
      exact hnd.filter _
  · intro ext c dir outputDir res hbl h
    obtain ⟨inner, diffs, ld, pd, keys, name, live, pbe, lttps, pttps,
      hLD, hEx, _, _, _, _, hres⟩ := PrepareDiff_ok ext c dir outputDir res hbl h
    rw [hres, hLD]
    have := (extractLoop_ret _ [] [] keys name hEx).1
    rw [this]
    rfl

/-- C12: whenever PrepareDiff returns a non-nil error, the diffResult returned
with it is the empty value: empty champion name, nil keys, nil live and pbe
maps, nil diff. -/
theorem PrepareDiff_error_returns_empty (ext : ChampionExt) (c : Champion) (dir outputDir : Str)
    (res : diffResult) (err : Str)
    (h : (c.PrepareDiff ext dir outputDir).out = Outcome.ret (res, some err)) :
    res.Champion.Name = [] ∧ res.Keys = none ∧ res.Live = none ∧ res.PBE = none
    ∧ res.Diff = none := by
  have hempty : ∀ e : Option Str,
      Outcome.ret (({} : diffResult), e) = Outcome.ret (res, some err) →
      res.Champion.Name = [] ∧ res.Keys = none ∧ res.Live = none ∧ res.PBE = none
      ∧ res.Diff = none := by
    intro e he
    simp only [Outcome.ret.injEq, Prod.mk.injEq] at he
    rw [← he.1]
    exact ⟨rfl, rfl, rfl, rfl, rfl⟩
  unfold Champion.PrepareDiff at h
  split at h
  · exact hempty _ h
  · split at h
    · exact hempty _ h
    · split at h
      · simp at h
      · split at h
        · exact hempty _ h
        · split at h
          · exact hempty _ h
          · split at h
            · simp at h
            · exact hempty _ h
            · split at h
              · simp at h
              · exact hempty _ h
              · simp at h

/-- Witness of C12: the file of the pbe document is missing, so LoadAndDiff
fails and PrepareDiff returns its error with the empty diffResult. -/
theorem PrepareDiff_error_returns_empty_witness :
    ∃ res err, (aatrox.PrepareDiff sampleDocExt "data".toList "out".toList).out
        = Outcome.ret (res, some err)
      ∧ res.Champion.Name = [] ∧ res.Keys = none ∧ res.Live = none ∧ res.PBE = none
      ∧ res.Diff = none :=
  ⟨_, _, rfl, PrepareDiff_error_returns_empty sampleDocExt aatrox "data".toList "out".toList
    _ _ rfl⟩

theorem GoMap.mem_keys_iff_get? {α : Type} (m : GoMap α) (k : Str) :
    k ∈ GoMap.keys m ↔ GoMap.get? m k ≠ none := by
  constructor
  · intro hk hnone
    induction m with
    | nil => exact absurd hk (List.not_mem_nil k)
    | cons e m ih =>
      obtain ⟨k1, v1⟩ := e
      by_cases h : k1 = k
      · simp only [GoMap.get?, if_pos h, reduceCtorEq] at hnone
      · simp only [GoMap.get?, if_neg h] at hnone
        rcases List.mem_cons.mp hk with h1 | h1
        · exact h h1.symm
        · exact ih h1 hnone
  · intro hne
    by_contra hk
    exact hne (GoMap.get?_eq_none_of_not_mem m k hk)

/-- Two runs of `mount` on models with the same keys and the same tooltip
table give maps with the same value under every key, as soon as `Calc` gives
the same outcome in both runs on every ability. -/
theorem mount_get?_congr (ext : ChampionExt) (d1 d2 : JSONData) (ts1 ts2 : GoMap Str)
    (hkeys : ∀ k, k ∈ GoMap.keys d1.Character ↔ k ∈ GoMap.keys d2.Character)
    (htips : ∀ k, GoMap.get? d1.Tooltips k = GoMap.get? d2.Tooltips k)
    (hcalc : ∀ k, k ∈ GoMap.keys d1.Character → IsAbilityKey k →
      ext.Calc (chosenTemplate ext d1 (abilityId k)) (spellOf d1 k)
        = ext.Calc (chosenTemplate ext d1 (abilityId k)) (spellOf d2 k))
    (h1 : mount ext d1 = Outcome.ret (ts1, none))
    (h2 : mount ext d2 = Outcome.ret (ts2, none)) :
    ∀ k, GoMap.get? ts1 k = GoMap.get? ts2 k := by
  intro k
  have htpl : ∀ ak, chosenTemplate ext d1 ak = chosenTemplate ext d2 ak := by
    intro ak
    unfold chosenTemplate
    rw [htips, htips]
  by_cases hk : k ∈ GoMap.keys d1.Character ∧ IsAbilityKey k
  · obtain ⟨tp1, hc1, hg1⟩ :=
      mountLoop_get?_of_mem ext d1 k hk.2 (GoMap.keys d1.Character) [] ts1 hk.1 rfl h1
    obtain ⟨tp2, hc2, hg2⟩ :=
      mountLoop_get?_of_mem ext d2 k hk.2 (GoMap.keys d2.Character) [] ts2
        ((hkeys k).mp hk.1) rfl h2
    rw [hcalc k hk.1 hk.2, htpl, hc2] at hc1
    have htp : tp2 = tp1 := Except.ok.inj hc1
    rw [hg1, hg2, htp]
  · have hn1 : k ∉ GoMap.keys ts1 := by
      intro hmem
      obtain ⟨v, hv⟩ := GoMap.exists_of_mem_keys ts1 k hmem
      have hr : Resolved ext d1 k v := mount_resolved ext d1 ts1 none h1 (k, v) hv
      exact hk ⟨hr.1, hr.2.1⟩
    have hn2 : k ∉ GoMap.keys ts2 := by
      intro hmem
      obtain ⟨v, hv⟩ := GoMap.exists_of_mem_keys ts2 k hmem
      have hr : Resolved ext d2 k v := mount_resolved ext d2 ts2 none h2 (k, v) hv
      exact hk ⟨(hkeys k).mpr hr.1, hr.2.1⟩
    rw [GoMap.get?_eq_none_of_not_mem ts1 k hn1, GoMap.get?_eq_none_of_not_mem ts2 k hn2]

/-- What `PrepareDiff` returns on identical documents: when both loads give the
bytes `b`, the delta has no key, decode succeeds on `b` and the two runs of
`mount` succeed, the result holds the empty list of keys, the map of the first
run as Live and the map of the second run as PBE. -/
theorem PrepareDiff_same_bytes (ext : ChampionExt) (c : Champion) (dir outputDir : Str)
    (b : Bytes) (dl : ext.Diff) (data : JSONData) (ts1 ts2 : GoMap Str)
    (hbl : c.Name ∉ blacklist)
    (hlive : ext.Load c dir ext.LatestFile = Except.ok b)
    (hpbe : ext.Load c dir ext.PBEFile = Except.ok b)
    (hcmp : ext.Compare b b = Except.ok dl)
    (hfmt : ext.FormatAsJson dl = Except.ok [])
    (hdec : decode ext b = (data, none))
    (hm1 : mount ext (ext.visit 0 data) = Outcome.ret (ts1, none))
    (hm2 : mount ext (ext.visit 1 data) = Outcome.ret (ts2, none)) :
    (c.PrepareDiff ext dir outputDir).out = Outcome.ret
      ({ Champion := { Name := [] }, Live := some ts1, PBE := some ts2, Keys := some [],
         Diff := some [] }, none) := by
  have hLD := LoadAndDiff_ok ext c dir b b dl [] hlive hpbe hcmp hfmt
  have hEx : extractLoop (GoMap.keys ([] : GoMap Json)) ([], [])
      = Outcome.ret ([], []) := rfl
  unfold Champion.PrepareDiff
  rw [blacklist_any_false c hbl]
  simp only [Bool.false_eq_true, if_false, hLD, hEx, Option.getD_some, hdec, hm1, hm2]

/-- Counterexample to C13 as stated: a champion that is not in the denylist,
the same bytes `[0]` as live and as pbe document, an empty delta, decode and
both runs of mount succeeding; the ability has the template `@A@B@` and the
calculations `A` and `B`, which the second run visits in the other order. Keys
is empty, but Live holds `80B@` and PBE holds `@A80` under the same key. -/
theorem identical_documents_can_differ :
    aatrox.Name ∉ blacklist
    ∧ overlapExt.Load aatrox "data".toList overlapExt.LatestFile = Except.ok [0]
    ∧ overlapExt.Load aatrox "data".toList overlapExt.PBEFile = Except.ok [0]
    ∧ (decode overlapExt [0]).2 = none
    ∧ JSONData.SameEntries (overlapExt.visit 0 (decode overlapExt [0]).1)
        (overlapExt.visit 1 (decode overlapExt [0]).1)
    ∧ (∃ res, (aatrox.PrepareDiff overlapExt "data".toList "out".toList).out
          = Outcome.ret (res, none)
        ∧ res.Keys = some []
        ∧ res.Live = some
            [("Characters/Aatrox/Spells/AatroxQAbility/AatroxQ".toList, "80B@".toList)]
        ∧ res.PBE = some
            [("Characters/Aatrox/Spells/AatroxQAbility/AatroxQ".toList, "@A80".toList)]) := by
  refine ⟨by decide, rfl, rfl, rfl, ?_, ⟨_, rfl, rfl, rfl, rfl⟩⟩
  exact overlapExt.visit_same 1 _

/-- C13, amended: for a champion that is not in the denylist whose live and pbe
documents are the same bytes, when the structural diff of identical inputs has
no top-level key, decode succeeds and both runs of mount succeed, PrepareDiff
returns no error and Keys is the empty list; Live is the map of the first run
and PBE the map of the second; the two maps have the same key set and equal
values at every key when, on every ability of the document, Calc gives the
same outcome under the visiting orders of the two runs. -/
theorem PrepareDiff_identical_documents (ext : ChampionExt) (c : Champion) (dir outputDir : Str)
    (b : Bytes) (dl : ext.Diff) (data : JSONData) (ts1 ts2 : GoMap Str)
    (hbl : c.Name ∉ blacklist)
    (hlive : ext.Load c dir ext.LatestFile = Except.ok b)
    (hpbe : ext.Load c dir ext.PBEFile = Except.ok b)
    (hcmp : ext.Compare b b = Except.ok dl)
    (hfmt : ext.FormatAsJson dl = Except.ok [])
    (hdec : decode ext b = (data, none))
    (hm1 : mount ext (ext.visit 0 data) = Outcome.ret (ts1, none))
    (hm2 : mount ext (ext.visit 1 data) = Outcome.ret (ts2, none)) :
    ∃ res, (c.PrepareDiff ext dir outputDir).out = Outcome.ret (res, none)
      ∧ res.Keys = some []
      ∧ res.Live = some ts1 ∧ res.PBE = some ts2
      ∧ ((∀ k, k ∈ GoMap.keys data.Character → IsAbilityKey k →
            ext.Calc (chosenTemplate ext data (abilityId k)) (spellOf (ext.visit 0 data) k)
              = ext.Calc (chosenTemplate ext data (abilityId k)) (spellOf (ext.visit 1 data) k)) →
          (∀ k, k ∈ GoMap.keys ts1 ↔ k ∈ GoMap.keys ts2)
          ∧ ∀ k, GoMap.get? ts1 k = GoMap.get? ts2 k) := by
  refine ⟨_, PrepareDiff_same_bytes ext c dir outputDir b dl data ts1 ts2 hbl hlive hpbe hcmp
    hfmt hdec hm1 hm2, rfl, rfl, rfl, ?_⟩
  intro hcalc
  obtain ⟨ht0, hk0, _⟩ := ext.visit_same 0 data
  obtain ⟨ht1, hk1, _⟩ := ext.visit_same 1 data
  have htpl : ∀ ak, chosenTemplate ext (ext.visit 0 data) ak = chosenTemplate ext data ak := by
    intro ak
    unfold chosenTemplate
    rw [← ht0, ← ht0]
  have hget : ∀ k, GoMap.get? ts1 k = GoMap.get? ts2 k :=
    mount_get?_congr ext (ext.visit 0 data) (ext.visit 1 data) ts1 ts2
      (fun k => (hk0 k).symm.trans (hk1 k))
      (fun k => (ht0 k).symm.trans (ht1 k))
      (fun k hk hab => by
        rw [htpl]
        exact hcalc k ((hk0 k).mpr hk) hab)
      hm1 hm2
  refine ⟨?_, hget⟩
  intro k
  rw [GoMap.mem_keys_iff_get?, GoMap.mem_keys_iff_get?, hget]

/-- Witness of C13 as amended: the ability has the template
`Deals @Damage@ magic damage plus @Bonus@ bonus.` and the calculations
`Damage` and `Bonus`, which the second run visits in the other order; Calc
gives the same outcome in both runs and Live and PBE hold the same text. -/
theorem PrepareDiff_identical_documents_witness :
    (∀ k, k ∈ GoMap.keys (decode separatedExt [0]).1.Character → IsAbilityKey k →
      separatedExt.Calc (chosenTemplate separatedExt (decode separatedExt [0]).1 (abilityId k))
          (spellOf (separatedExt.visit 0 (decode separatedExt [0]).1) k)
        = separatedExt.Calc
          (chosenTemplate separatedExt (decode separatedExt [0]).1 (abilityId k))
          (spellOf (separatedExt.visit 1 (decode separatedExt [0]).1) k))
    ∧ ∃ res, (aatrox.PrepareDiff separatedExt "data".toList "out".toList).out
        = Outcome.ret (res, none)
      ∧ res.Keys = some []
      ∧ res.Live = some
          [("Characters/Aatrox/Spells/AatroxQAbility/AatroxQ".toList,
            "Deals 80 magic damage plus (+ 80% bonus AP) bonus.".toList)]
      ∧ res.PBE = some
          [("Characters/Aatrox/Spells/AatroxQAbility/AatroxQ".toList,
            "Deals 80 magic damage plus (+ 80% bonus AP) bonus.".toList)] := by
  have hcalc : ∀ k, k ∈ GoMap.keys (decode separatedExt [0]).1.Character → IsAbilityKey k →
      separatedExt.Calc (chosenTemplate separatedExt (decode separatedExt [0]).1 (abilityId k))
          (spellOf (separatedExt.visit 0 (decode separatedExt [0]).1) k)
        = separatedExt.Calc
          (chosenTemplate separatedExt (decode separatedExt [0]).1 (abilityId k))
          (spellOf (separatedExt.visit 1 (decode separatedExt [0]).1) k) := by
    intro k hk _
    have hkey : k = "Characters/Aatrox/Spells/AatroxQAbility/AatroxQ".toList := by
      have hkeys : GoMap.keys (decode separatedExt [0]).1.Character
          = ["Characters/Aatrox/Spells/AatroxQAbility/AatroxQ".toList] := rfl
      rw [hkeys, List.mem_singleton] at hk
      exact hk
    rw [hkey]
    rfl
  obtain ⟨res, h1, h2, h3, h4, _⟩ :=
    PrepareDiff_identical_documents separatedExt aatrox "data".toList "out".toList
      [0] ([] : GoMap Json) (decode separatedExt [0]).1
      [("Characters/Aatrox/Spells/AatroxQAbility/AatroxQ".toList,
        "Deals 80 magic damage plus (+ 80% bonus AP) bonus.".toList)]
      [("Characters/Aatrox/Spells/AatroxQAbility/AatroxQ".toList,
        "Deals 80 magic damage plus (+ 80% bonus AP) bonus.".toList)]
      (by decide) rfl rfl rfl rfl rfl rfl rfl
  exact ⟨hcalc, res, h1, h2, h3, h4⟩

/-- Counterexample to C18 as stated: in this delta the first key whose first
segment is `Characters` has an empty second segment, yet the name computed by
the loop, and by PrepareDiff, is `Aatrox`, the second segment of a later
key. -/
theorem name_skips_empty_second_segment :
    (GoMap.keys unnamedFirstDelta).find?
        (fun key => decide ((Split key "/".toList)[0]? = some "Characters".toList))
      = some "Characters//Spells".toList
    ∧ (Split "Characters//Spells".toList "/".toList)[1]? = some []
    ∧ extractLoop (GoMap.keys unnamedFirstDelta) ([], [])
        = Outcome.ret (GoMap.keys unnamedFirstDelta, "Aatrox".toList)
    ∧ (∃ res, (aatrox.PrepareDiff (twoFilesExt unnamedFirstDelta) "data".toList "out".toList).out
          = Outcome.ret (res, none)
        ∧ res.Champion.Name = "Aatrox".toList) := by
  refine ⟨by decide, by decide, by decide, ⟨_, rfl, rfl⟩⟩

/-- C18, amended: when the key-extraction loop completes, the champion name is
the second segment of the first delta key, in visiting order, whose first
segment is `Characters` and whose second segment is not empty, and it is the
empty string when there is no such key (in particular when no key has the
first segment `Characters`); PrepareDiff returns that name. The loop
completes when no key is empty and every key whose first segment is
`Characters` has a second segment. -/
theorem name_is_first_nonempty_second_segment :
    (∀ (ks keys : List Str) (name : Str),
        extractLoop ks ([], []) = Outcome.ret (keys, name) → name = characterName ks)
    ∧ (∀ ks : List Str,
        (∀ key ∈ ks, (Split key "/".toList)[0]? ≠ some "Characters".toList) →
        characterName ks = [])
    ∧ (∀ ks : List Str,
        (∀ key ∈ ks, key ≠ [] ∧ ((Split key "/".toList)[0]? = some "Characters".toList →
          2 ≤ (Split key "/".toList).length)) →
        ∃ keys, extractLoop ks ([], []) = Outcome.ret (keys, characterName ks))
    ∧ (∀ (ext : ChampionExt) (c : Champion) (dir outputDir : Str) (res : diffResult),
        c.Name ∉ blacklist →
        (c.PrepareDiff ext dir outputDir).out = Outcome.ret (res, none) →
        res.Champion.Name
          = characterName (GoMap.keys ((c.LoadAndDiff ext dir).2.1.getD []))) := by
  refine ⟨?_, ?_, ?_, ?_⟩
  · intro ks keys name h
    have := (extractLoop_ret ks [] [] keys name h).2
    rw [this]
    rfl
  · intro ks hks
    unfold characterName
    have hnone : ks.find? (fun key => decide (NamesCharacter key)) = none := by
      rw [List.find?_eq_none]
      intro key hkey hnc
      exact hks key hkey (of_decide_eq_true hnc).1
    rw [hnone]
  · intro ks hks
    obtain ⟨⟨keys, name⟩, h⟩ := extractLoop_returns ks hks ([], [])
    have hn := (extractLoop_ret ks [] [] keys name h).2
    refine ⟨keys, ?_⟩
    rw [h, hn]
    rfl
  · intro ext c dir outputDir res hbl h
    obtain ⟨inner, diffs, ld, pd, keys, name, live, pbe, lttps, pttps,
      hLD, hEx, _, _, _, _, hres⟩ := PrepareDiff_ok ext c dir outputDir res hbl h
    rw [hres, hLD]
    have := (extractLoop_ret _ [] [] keys name hEx).2
    rw [this]
    rfl

/-- Witness of C18 as amended: a delta whose keys are visited in the order
sentinel key, ability key, character record. -/
theorem name_is_first_nonempty_second_segment_witness :
    characterName (GoMap.keys sampleDelta) = "Aatrox".toList
    ∧ extractLoop (GoMap.keys sampleDelta) ([], []) = Outcome.ret
        (["Characters/Aatrox/Spells/AatroxQAbility/AatroxQ".toList,
          "Characters/Aatrox/CharacterRecords/Root".toList], "Aatrox".toList)
    ∧ (∃ res, (aatrox.PrepareDiff (twoFilesExt sampleDelta) "data".toList "out".toList).out
          = Outcome.ret (res, none)
        ∧ res.Champion.Name = "Aatrox".toList) := by
  refine ⟨by decide, by decide, ?_⟩
  have hout : ∃ res,
      (aatrox.PrepareDiff (twoFilesExt sampleDelta) "data".toList "out".toList).out
        = Outcome.ret (res, none) := ⟨_, rfl⟩
  obtain ⟨res, hres⟩ := hout
  refine ⟨res, hres, ?_⟩
  rw [name_is_first_nonempty_second_segment.2.2.2 (twoFilesExt sampleDelta) aatrox
    "data".toList "out".toList res (by decide) hres]
  decide

/-! ## Part renderers: claims C14 and C15 -/

theorem nameddatavalue_eq_find (ext : TtpExt) (k : Str) (flag : Bool) (dv : SpellValues) :
    nameddatavaluecalculationpart ext k flag dv
      = match dv.find? (fun v => decide (k = v.Name)) with
        | some v => ext.valuesToString v.Values flag
        | none => [] := by
  induction dv with
  | nil => rfl
  | cons val dv ih =>
    unfold nameddatavaluecalculationpart
    by_cases h : k = val.Name
    · rw [if_pos h]
      simp only [List.find?_cons, decide_eq_true h]
    · rw [if_neg h, ih]
      simp only [List.find?_cons, decide_eq_false h]

theorem statbynameddatavalue_eq_find (ext : TtpExt) (p : FormulaPart) (dv : SpellValues) :
    statbynameddatavaluecalculationpart ext p dv
      = match dv.find? (fun v => decide (p.DataValue = v.Name)) with
        | some v => "(+ ".toList ++ ext.valuesToString v.Values true ++ " ".toList
            ++ ext.statFormulaToString p.StatFormula ++ " ".toList
            ++ ext.statToString p.Stat ++ ")".toList
        | none => [] := by
  induction dv with
  | nil => rfl
  | cons val dv ih =>
    unfold statbynameddatavaluecalculationpart
    by_cases h : p.DataValue = val.Name
    · rw [if_pos h]
      simp only [List.find?_cons, decide_eq_true h]
    · rw [if_neg h, ih]
      simp only [List.find?_cons, decide_eq_false h]

theorem partFragment_statByNamed (ext : TtpExt) (pct : Bool) (spl : SpellDataResource)
    (p : FormulaPart) (hT : p.Type_ = "StatByNamedDataValueCalculationPart".toList) :
    partFragment ext pct spl p = statbynameddatavaluecalculationpart ext p spl.DataValues := by
  have h1 : ¬ p.Type_ = "NamedDataValueCalculationPart".toList := by
    rw [hT]
    decide
  unfold partFragment
  rw [if_neg h1, if_pos hT]

/-- C14: the fragment of a part of type StatByNamedDataValueCalculationPart is
the same whether DisplayAsPercent is true or false; when a data value has the
name of the part, it is `(+ <ratio> <formula-label> <stat-label>)` with the
values of the first such data value rendered as a percent, and it is empty
when no data value has that name. -/
theorem statByNamed_fragment_ignores_flag (ext : TtpExt) (spl : SpellDataResource)
    (p : FormulaPart) (hT : p.Type_ = "StatByNamedDataValueCalculationPart".toList) :
    partFragment ext true spl p = partFragment ext false spl p
    ∧ FormulaParts.toString ext (some [p]) true spl = FormulaParts.toString ext (some [p]) false spl
    ∧ (∀ (pct : Bool) (val : SpellDataValue),
        spl.DataValues.find? (fun v => decide (p.DataValue = v.Name)) = some val →
        partFragment ext pct spl p
          = "(+ ".toList ++ ext.valuesToString val.Values true ++ " ".toList
            ++ ext.statFormulaToString p.StatFormula ++ " ".toList
            ++ ext.statToString p.Stat ++ ")".toList)
    ∧ (∀ pct : Bool,
        spl.DataValues.find? (fun v => decide (p.DataValue = v.Name)) = none →
        partFragment ext pct spl p = []) := by
  have hfrag : ∀ pct, partFragment ext pct spl p
      = statbynameddatavaluecalculationpart ext p spl.DataValues :=
    fun pct => partFragment_statByNamed ext pct spl p hT
  refine ⟨?_, ?_, ?_, ?_⟩
  · rw [hfrag true, hfrag false]
  · rw [toString_eq_Join, toString_eq_Join]
    simp only [List.map_cons, List.map_nil, Join]
    rw [hfrag true, hfrag false]
  · intro pct val hval
    rw [hfrag pct, statbynameddatavalue_eq_find, hval]
  · intro pct hnone
    rw [hfrag pct, statbynameddatavalue_eq_find, hnone]

/-- Witness of C14: the same fragment under both flags, a percent in both. -/
theorem statByNamed_fragment_ignores_flag_witness :
    partFragment sampleTtpExt true damageSpell statByNamedPart = "(+ 80% bonus AP)".toList
    ∧ partFragment sampleTtpExt false damageSpell statByNamedPart = "(+ 80% bonus AP)".toList := by
  have h := statByNamed_fragment_ignores_flag sampleTtpExt damageSpell statByNamedPart rfl
  have ht : partFragment sampleTtpExt true damageSpell statByNamedPart
      = "(+ 80% bonus AP)".toList := by decide
  exact ⟨ht, h.1.symm.trans ht⟩

/-- C15: nameddatavaluecalculationpart returns the empty string when no data
value has the name `k`, and otherwise the rendering, under the flag it was
given, of the values of the first data value of the list whose name is `k`;
data values after that one are not used. -/
theorem nameddatavalue_first_match (ext : TtpExt) (k : Str) (flag : Bool) :
    (∀ dv : SpellValues, nameddatavaluecalculationpart ext k flag dv
      = match dv.find? (fun v => decide (k = v.Name)) with
        | some v => ext.valuesToString v.Values flag
        | none => [])
    ∧ (∀ dv : SpellValues, (∀ v ∈ dv, v.Name ≠ k) →
        nameddatavaluecalculationpart ext k flag dv = [])
    ∧ (∀ (before : SpellValues) (v : SpellDataValue) (after : SpellValues),
        (∀ u ∈ before, u.Name ≠ k) → v.Name = k →
        nameddatavaluecalculationpart ext k flag (before ++ v :: after)
          = ext.valuesToString v.Values flag) := by
  refine ⟨fun dv => nameddatavalue_eq_find ext k flag dv, ?_, ?_⟩
  · intro dv hdv
    rw [nameddatavalue_eq_find]
    have hnone : dv.find? (fun v => decide (k = v.Name)) = none := by
      rw [List.find?_eq_none]
      intro v hv hk
      exact hdv v hv (of_decide_eq_true hk).symm
    rw [hnone]
  · intro before v after hbefore hv
    induction before with
    | nil =>
      rw [List.nil_append]
      unfold nameddatavaluecalculationpart
      rw [if_pos hv.symm]
    | cons u before ih =>
      have hu : ¬ k = u.Name := fun h => hbefore u (List.mem_cons_self _ _) h.symm
      rw [List.cons_append]
      unfold nameddatavaluecalculationpart
      rw [if_neg hu]
      exact ih (fun w hw => hbefore w (List.mem_cons_of_mem _ hw))

/-- Witness of C15: the first of two data values named `BaseDamage` is the one
rendered, under either flag, and an unknown name renders empty. -/
theorem nameddatavalue_first_match_witness :
    nameddatavaluecalculationpart sampleTtpExt "BaseDamage".toList false repeatedValues
      = "80".toList
    ∧ nameddatavaluecalculationpart sampleTtpExt "BaseDamage".toList true repeatedValues
      = "80%".toList
    ∧ nameddatavaluecalculationpart sampleTtpExt "Missing".toList true repeatedValues = [] :=
  ⟨((nameddatavalue_first_match sampleTtpExt "BaseDamage".toList false).2.2
      [{ Name := "Other".toList, Values := [Json.str "1".toList] }]
      { Name := "BaseDamage".toList, Values := [Json.str "80".toList] }
      [{ Name := "BaseDamage".toList, Values := [Json.str "95".toList] }]
      (by
        intro u hu
        rw [List.mem_singleton] at hu
        rw [hu]
        decide)
      rfl).trans (by decide),
    by decide, by decide⟩

/-! ## Document normalizer: claim C17 -/

theorem decodeMap_mem {β : Type} (f : Json → Except Str β) (m : GoMap Json) :
    ∀ r, decodeMap f m = Except.ok r →
      ∀ (k : Str) (v : Json) (b : β), (k, v) ∈ m → f v = Except.ok b → (k, b) ∈ r := by
  induction m with
  | nil =>
    intro r _ k v b hmem
    exact absurd hmem (List.not_mem_nil _)
  | cons e m ih =>
    obtain ⟨k1, v1⟩ := e
    intro r h k v b hmem hf
    unfold decodeMap at h
    cases hf1 : f v1 with
    | error err =>
      rw [hf1] at h
      simp only [reduceCtorEq] at h
    | ok b1 =>
      rw [hf1] at h
      cases hm : decodeMap f m with
      | error err =>
        rw [hm] at h
        simp only [reduceCtorEq] at h
      | ok r1 =>
        rw [hm] at h
        simp only [Except.ok.injEq] at h
        rw [← h]
        rcases List.mem_cons.mp hmem with heq | hrest
        · simp only [Prod.mk.injEq] at heq
          rw [heq.2, hf1] at hf
          rw [heq.1, ← Except.ok.inj hf]
          exact List.mem_cons_self _ _
        · exact List.mem_cons_of_mem _ (ih r1 hm k v b hrest hf)

/-- What a successful `decode` computed: the two maps of its result are the
decodings of the document without its `tooltips` key and of the entries of
its `tooltips` entry. -/
theorem decode_ok_inv (ext : ChampionExt) (d : Bytes) (doc : GoMap Json) (r : JSONData)
    (hdoc : ext.Unmarshal d = Except.ok doc) (h : decode ext d = (r, none)) :
    decodeMap ext.decodeSpellObject (GoMap.delete doc "tooltips".toList) = Except.ok r.Character
    ∧ decodeMap ext.decodeString (tooltipsEntry doc) = Except.ok r.Tooltips := by
  unfold decode at h
  rw [hdoc] at h
  simp only [mapstructureDecode] at h
  unfold tooltipsEntry
  cases hc : decodeMap ext.decodeSpellObject (GoMap.delete doc "tooltips".toList) with
  | error err =>
    rw [hc] at h
    simp at h
  | ok rc =>
    rw [hc] at h
    simp only at h
    split at h
    · simp at h
    · rename_i res hres
      split at hres
      · simp at hres
      · rename_i rt hrt
        simp only [Except.ok.injEq] at hres
        simp only [Prod.mk.injEq, and_true] at h
        rw [← h, ← hres]
        exact ⟨rfl, hrt⟩

theorem decode_character_no_tooltips (ext : ChampionExt) (d : Bytes) :
    "tooltips".toList ∉ GoMap.keys (decode ext d).1.Character := by
  cases hdoc : ext.Unmarshal d with
  | error err =>
    unfold decode
    rw [hdoc]
    exact List.not_mem_nil _
  | ok doc =>
    cases hdec : decode ext d with
    | mk r e =>
      cases e with
      | none =>
        rw [decode_character_keys ext d doc r hdoc hdec, GoMap.mem_keys_delete]
        exact fun hk => hk.2 rfl
      | some err =>
        have hr : r = {} := by
          unfold decode at hdec
          rw [hdoc] at hdec
          simp only at hdec
          split at hdec
          · exact (Prod.mk.inj hdec).1.symm
          · exact absurd (Prod.mk.inj hdec).2 (by simp)
        rw [hr]
        exact List.not_mem_nil _

/-- C17: the ability mapping returned by decode never has the key `tooltips`;
when the document parses as a top-level mapping and decode succeeds, every
other top-level key of the document is a key of the ability mapping, the
template table is the decoding of the entries of the `tooltips` entry when
that entry is a mapping (same keys, and under a key whose value is a string,
that string), and it is empty when the `tooltips` entry is absent. -/
theorem decode_splits_tooltips (ext : ChampionExt) (d : Bytes) :
    "tooltips".toList ∉ GoMap.keys (decode ext d).1.Character
    ∧ (∀ (doc : GoMap Json) (r : JSONData),
        ext.Unmarshal d = Except.ok doc → decode ext d = (r, none) →
        (∀ k, k ∈ GoMap.keys doc → k ≠ "tooltips".toList → k ∈ GoMap.keys r.Character)
        ∧ (∀ n, GoMap.get? doc "tooltips".toList = some (Json.obj n) →
            decodeMap ext.decodeString n = Except.ok r.Tooltips
            ∧ GoMap.keys r.Tooltips = GoMap.keys n
            ∧ ((∀ s, ext.decodeString (Json.str s) = Except.ok s) →
                ∀ k s, (k, Json.str s) ∈ n → (k, s) ∈ r.Tooltips))
        ∧ (GoMap.get? doc "tooltips".toList = none → r.Tooltips = [])) := by
  refine ⟨decode_character_no_tooltips ext d, ?_⟩
  intro doc r hdoc h
  obtain ⟨hc, ht⟩ := decode_ok_inv ext d doc r hdoc h
  refine ⟨?_, ?_, ?_⟩
  · intro k hk hne
    rw [decode_character_keys ext d doc r hdoc h, GoMap.mem_keys_delete]
    exact ⟨hk, hne⟩
  · intro n hn
    have hentry : tooltipsEntry doc = n := by
      unfold tooltipsEntry
      rw [hn]
    rw [hentry] at ht
    refine ⟨ht, decodeMap_keys _ _ _ ht, ?_⟩
    intro hstr k s hmem
    exact decodeMap_mem _ _ _ ht k (Json.str s) s hmem (hstr s)
  · intro hnone
    have hentry : tooltipsEntry doc = [] := by
      unfold tooltipsEntry
      rw [hnone]
    rw [hentry] at ht
    simp only [decodeMap, Except.ok.injEq] at ht
    exact ht.symm

/-- Witness of C17: a document with a `tooltips` mapping, and one without. -/
theorem decode_splits_tooltips_witness :
    (decode mixedFilesExt [0]).1.Tooltips
      = [("generatedtip_spell_aatroxq_tooltipextended".toList, "Slash.".toList)]
    ∧ GoMap.keys (decode mixedFilesExt [0]).1.Character
      = ["Characters/Aatrox/Spells/AatroxQAbility/AatroxQ".toList,
         "Characters/Aatrox/Spells/AatroxPassiveAbility/AatroxPassive".toList]
    ∧ (decode mixedFilesExt [1]).1.Tooltips = []
    ∧ GoMap.keys (decode mixedFilesExt [1]).1.Character = GoMap.keys noTooltipsDoc :=
  ⟨by decide, by decide,
    ((decode_splits_tooltips mixedFilesExt [1]).2 noTooltipsDoc (decode mixedFilesExt [1]).1
      rfl rfl).2.2 rfl,
    by decide⟩

/-! ## Part renderers: claim C16 -/

theorem partFragment_statByCoefficient (ext : TtpExt) (pct : Bool) (spl : SpellDataResource)
    (p : FormulaPart) (hT : p.Type_ = "StatByCoefficientCalculationPart".toList) :
    partFragment ext pct spl p = statbycoefficientcalculationpart ext p := by
  have h1 : ¬ p.Type_ = "NamedDataValueCalculationPart".toList := by
    rw [hT]
    decide
  have h2 : ¬ p.Type_ = "StatByNamedDataValueCalculationPart".toList := by
    rw [hT]
    decide
  unfold partFragment
  rw [if_neg h1, if_neg h2, if_pos hT]

/-- C16: the fragment of a part of type StatByCoefficientCalculationPart is
`(+ <r>% <formula-label> <stat-label>)`, where `<r>` is the product of the
coefficient and 100 formatted under `%.2f`; it depends neither on the data
values nor on the DisplayAsPercent flag. -/
theorem statByCoefficient_fragment (ext : TtpExt) (pct : Bool) (spl : SpellDataResource)
    (p : FormulaPart) (hT : p.Type_ = "StatByCoefficientCalculationPart".toList) :
    partFragment ext pct spl p
      = "(+ ".toList ++ ext.fmt2f (ext.fmul p.Coefficient Float64.hundred) ++ "% ".toList
        ++ ext.statFormulaToString p.StatFormula ++ " ".toList
        ++ ext.statToString p.Stat ++ ")".toList
    ∧ (∀ (pct2 : Bool) (spl2 : SpellDataResource),
        partFragment ext pct2 spl2 p = partFragment ext pct spl p)
    ∧ FormulaParts.toString ext (some [p]) pct spl = partFragment ext pct spl p := by
  refine ⟨?_, ?_, ?_⟩
  · rw [partFragment_statByCoefficient ext pct spl p hT]
    rfl
  · intro pct2 spl2
    rw [partFragment_statByCoefficient ext pct2 spl2 p hT,
      partFragment_statByCoefficient ext pct spl p hT]
  · rw [toString_eq_Join]
    rfl

set_option maxRecDepth 100000 in
theorem half_mul_hundred : Float64.mul Float64.half Float64.hundred = ⟨0x4049000000000000⟩ := by
  decide

set_option maxRecDepth 100000 in
theorem fmt2f_fifty : Float64.fmt2f ⟨0x4049000000000000⟩ = "50.00".toList := by
  decide

/-- Witness of C16: under the model of float64, the coefficient `0.5` times 100
is the float `50` and renders as `50.00`; the labels are those of the sample
functions. -/
theorem statByCoefficient_fragment_witness :
    Float64.mul Float64.half Float64.hundred = ⟨0x4049000000000000⟩
    ∧ Float64.fmt2f ⟨0x4049000000000000⟩ = "50.00".toList
    ∧ partFragment floatTtpExt true damageSpell halfCoefficientPart
        = "(+ 50.00% bonus AP)".toList
    ∧ partFragment floatTtpExt false { DataValues := [] } halfCoefficientPart
        = "(+ 50.00% bonus AP)".toList := by
  have h := statByCoefficient_fragment floatTtpExt true damageSpell halfCoefficientPart rfl
  have ht : partFragment floatTtpExt true damageSpell halfCoefficientPart
      = "(+ 50.00% bonus AP)".toList := by
    rw [h.1]
    have hr : floatTtpExt.fmt2f (floatTtpExt.fmul halfCoefficientPart.Coefficient Float64.hundred)
        = "50.00".toList := by
      have h1 : floatTtpExt.fmt2f = Float64.fmt2f := rfl
      have h2 : floatTtpExt.fmul = Float64.mul := rfl
      have h3 : halfCoefficientPart.Coefficient = Float64.half := rfl
      rw [h1, h2, h3, half_mul_hundred]
      exact fmt2f_fifty
    rw [hr]
    rfl
  exact ⟨half_mul_hundred, fmt2f_fifty, ht, (h.2.1 false { DataValues := [] }).trans ht⟩

/-! ## Lemmas on substitution in a template laid out around its tokens -/

theorem token_eq_cons (k : Str) : token k = '@' :: (k ++ ['@']) := rfl

theorem replaceScan_cons_of_not_prefix (old new : Str) (c : Char) (cs : Str)
    (h : ¬ old <+: c :: cs) :
    replaceScan old new 0 (c :: cs) = c :: replaceScan old new 0 cs := by
  simp [replaceScan, List.isPrefixOf_iff_prefix, h]

theorem replaceScan_free_prefix (k r acc rest : Str) (hacc : '@' ∉ acc) :
    replaceScan (token k) r 0 (acc ++ rest) = acc ++ replaceScan (token k) r 0 rest := by
  induction acc with
  | nil => rfl
  | cons c acc ih =>
    have hc : c ≠ '@' := fun h => hacc (h ▸ List.mem_cons_self _ _)
    have hrest : '@' ∉ acc := fun h => hacc (List.mem_cons_of_mem _ h)
    have hnp : ¬ token k <+: c :: (acc ++ rest) := by
      rw [token_eq_cons, List.cons_prefix_cons]
      exact fun h => hc h.1.symm
    rw [List.cons_append, replaceScan_cons_of_not_prefix _ _ _ _ hnp, ih hrest]
    rfl

theorem replaceScan_at_token (k r rest : Str) :
    replaceScan (token k) r 0 (token k ++ rest) = r ++ replaceScan (token k) r 0 rest := by
  have hne : token k ≠ [] := token_ne_nil k
  have hdl : ¬ token k <:+: ([] ++ token k).dropLast := by
    intro h
    have hlen := h.length_le
    rw [List.nil_append, List.length_dropLast] at hlen
    have hpos := List.length_pos.mpr hne
    omega
  have := replaceScan_piece (token k) r hne [] rest hdl
  simpa using this

theorem not_prefix_of_ne_key (k k1 rest : Str) (hk : '@' ∉ k) (hk1 : '@' ∉ k1) (hne : k1 ≠ k) :
    ¬ (k ++ ['@']) <+: k1 ++ '@' :: rest := by
  induction k generalizing k1 with
  | nil =>
    cases k1 with
    | nil => exact absurd rfl hne
    | cons b k1 =>
      intro h
      rw [List.nil_append, List.cons_append, List.cons_prefix_cons] at h
      exact hk1 (h.1 ▸ List.mem_cons_self _ _)
  | cons a k ih =>
    cases k1 with
    | nil =>
      intro h
      rw [List.nil_append, List.cons_append, List.cons_prefix_cons] at h
      exact hk (h.1 ▸ List.mem_cons_self _ _)
    | cons b k1 =>
      intro h
      rw [List.cons_append, List.cons_append, List.cons_prefix_cons] at h
      have hne1 : k1 ≠ k := by
        intro he
        apply hne
        rw [he, h.1]
      exact ih k1 (fun hm => hk (List.mem_cons_of_mem _ hm))
        (fun hm => hk1 (List.mem_cons_of_mem _ hm)) hne1 h.2

theorem not_prefix_of_separator (k acc rest : Str) (hacc : '@' ∉ acc)
    (hsep : (∃ c ∈ acc, c ∉ k) ∨ rest = []) :
    ¬ (k ++ ['@']) <+: acc ++ rest := by
  induction k generalizing acc with
  | nil =>
    cases acc with
    | nil =>
      rcases hsep with ⟨c, hc, _⟩ | hrest
      · exact absurd hc (List.not_mem_nil c)
      · rw [hrest]
        intro h
        have := h.length_le
        simp at this
    | cons b acc =>
      intro h
      rw [List.nil_append, List.cons_append, List.cons_prefix_cons] at h
      exact hacc (h.1 ▸ List.mem_cons_self _ _)
  | cons a k ih =>
    cases acc with
    | nil =>
      rcases hsep with ⟨c, hc, _⟩ | hrest
      · exact absurd hc (List.not_mem_nil c)
      · rw [hrest]
        intro h
        have := h.length_le
        simp at this
    | cons b acc =>
      intro h
      rw [List.cons_append, List.cons_append, List.cons_prefix_cons] at h
      have hsep1 : (∃ c ∈ acc, c ∉ k) ∨ rest = [] := by
        rcases hsep with ⟨c, hc, hck⟩ | hrest
        · left
          rcases List.mem_cons.mp hc with hcb | hcacc
          · exact absurd (by rw [hcb, ← h.1]; exact List.mem_cons_self _ _) hck
          · exact ⟨c, hcacc, fun hm => hck (List.mem_cons_of_mem _ hm)⟩
        · exact Or.inr hrest
      exact ih acc (fun hm => hacc (List.mem_cons_of_mem _ hm)) hsep1 h.2

theorem Separated_tail (keys : List Str) (it : Str × Str) (rest : List (Str × Str))
    (h : Separated keys (it :: rest)) : Separated keys rest := by
  cases rest with
  | nil => trivial
  | cons next rest => exact h.2

theorem Separated_mono (keys1 keys2 : List Str) (hsub : ∀ k ∈ keys2, k ∈ keys1)
    (items : List (Str × Str)) (h : Separated keys1 items) : Separated keys2 items := by
  induction items with
  | nil => trivial
  | cons it rest ih =>
    cases rest with
    | nil => trivial
    | cons next rest =>
      obtain ⟨⟨c, hc, hck⟩, hrest⟩ := h
      exact ⟨⟨c, hc, fun key hkey => hck key (hsub key hkey)⟩, ih hrest⟩

theorem renderItems_nil (sub : Str → Option Str) : renderItems sub [] = [] := rfl

theorem renderItems_cons (sub : Str → Option Str) (it : Str × Str) (rest : List (Str × Str)) :
    renderItems sub (it :: rest)
      = (sub it.1).getD (token it.1) ++ it.2 ++ renderItems sub rest := by
  simp [renderItems, List.flatMap_cons]

/-- One substitution on a template laid out around its tokens: replacing the
token of `k`, not yet substituted, by `r` substitutes it at every item of key
`k` and changes nothing else. -/
theorem replaceScan_renderItems (k r : Str) (hk : '@' ∉ k) (sub : Str → Option Str)
    (hsub : sub k = none) (items : List (Str × Str)) :
    ∀ acc : Str, '@' ∉ acc →
      (∀ it ∈ items, '@' ∉ it.1 ∧ '@' ∉ it.2) →
      (∀ it ∈ items, ∀ r1, sub it.1 = some r1 → '@' ∉ r1) →
      Separated [k] items →
      replaceScan (token k) r 0 (acc ++ renderItems sub items)
        = acc ++ renderItems (fun key => if key = k then some r else sub key) items := by
  induction items with
  | nil =>
    intro acc hacc _ _ _
    rw [renderItems_nil, renderItems_nil, replaceScan_free_prefix k r acc [] hacc]
    rfl
  | cons it rest ih =>
    obtain ⟨k1, p1⟩ := it
    intro acc hacc hitems hvals hsep
    have hk1 : '@' ∉ k1 := (hitems (k1, p1) (List.mem_cons_self _ _)).1
    have hp1 : '@' ∉ p1 := (hitems (k1, p1) (List.mem_cons_self _ _)).2
    have hitems1 : ∀ it ∈ rest, '@' ∉ it.1 ∧ '@' ∉ it.2 :=
      fun it hit => hitems it (List.mem_cons_of_mem _ hit)
    have hvals1 : ∀ it ∈ rest, ∀ r1, sub it.1 = some r1 → '@' ∉ r1 :=
      fun it hit => hvals it (List.mem_cons_of_mem _ hit)
    have hsep1 : Separated [k] rest := Separated_tail [k] (k1, p1) rest hsep
    rw [renderItems_cons, renderItems_cons]
    simp only
    cases hs : sub k1 with
    | some r1 =>
      have hne : ¬ k1 = k := by
        intro he
        rw [he, hsub] at hs
        exact absurd hs (by simp)
      have hr1 : '@' ∉ r1 := hvals (k1, p1) (List.mem_cons_self _ _) r1 hs
      rw [if_neg hne]
      simp only [Option.getD_some]
      have hacc1 : '@' ∉ acc ++ (r1 ++ p1) := by
        simp only [List.mem_append, not_or]
        exact ⟨hacc, hr1, hp1⟩
      have := ih (acc ++ (r1 ++ p1)) hacc1 hitems1 hvals1 hsep1
      simp only [List.append_assoc] at this ⊢
      exact this
    | none =>
      simp only [Option.getD_none]
      by_cases he : k1 = k
      · rw [if_pos he, he]
        simp only [Option.getD_some]
        have h1 : acc ++ (token k ++ p1 ++ renderItems sub rest)
            = acc ++ (token k ++ (p1 ++ renderItems sub rest)) := by
          simp only [List.append_assoc]
        rw [h1, replaceScan_free_prefix k r acc _ hacc, replaceScan_at_token,
          ih p1 hp1 hitems1 hvals1 hsep1]
        simp only [List.append_assoc]
      · rw [if_neg he]
        simp only [Option.getD_none]
        have hnp1 : ¬ token k <+: '@' :: (k1 ++ '@' :: (p1 ++ renderItems sub rest)) := by
          rw [token_eq_cons, List.cons_prefix_cons]
          exact fun h => not_prefix_of_ne_key k k1 _ hk hk1 he h.2
        have hsepp : (∃ c ∈ p1, c ∉ k) ∨ renderItems sub rest = [] := by
          cases rest with
          | nil => exact Or.inr rfl
          | cons next rest =>
            obtain ⟨⟨c, hc, hck⟩, _⟩ := hsep
            exact Or.inl ⟨c, hc, hck k (List.mem_singleton.mpr rfl)⟩
        have hnp2 : ¬ token k <+: '@' :: (p1 ++ renderItems sub rest) := by
          rw [token_eq_cons, List.cons_prefix_cons]
          exact fun h => not_prefix_of_separator k p1 _ hp1 hsepp h.2
        have h1 : acc ++ (token k1 ++ p1 ++ renderItems sub rest)
            = acc ++ ('@' :: (k1 ++ '@' :: (p1 ++ renderItems sub rest))) := by
          rw [token_eq_cons]
          simp only [List.append_assoc, List.cons_append, List.nil_append]
        rw [h1, replaceScan_free_prefix k r acc _ hacc,
          replaceScan_cons_of_not_prefix _ _ _ _ hnp1,
          replaceScan_free_prefix k r k1 _ hk1,
          replaceScan_cons_of_not_prefix _ _ _ _ hnp2,
          ih p1 hp1 hitems1 hvals1 hsep1, token_eq_cons]
        simp only [List.append_assoc, List.cons_append, List.nil_append]

theorem toTooltipStep_eq (ext : TtpExt) (spl : SpellDataResource) (t : Tooltip)
    (e : Str × GameCalculation) :
    toTooltipStep ext spl t e
      = match entryFragment ext spl e.2 with
        | some r => Replace t (token e.1) r
        | none => t := by
  unfold toTooltipStep entryFragment
  by_cases h : e.2.Type_ = "GameCalculation".toList ∧ e.2.FormulaParts.isSome = true
  · simp only [if_pos h]
  · simp only [if_neg h]

theorem fragmentOf_cons (ext : TtpExt) (spl : SpellDataResource) (k : Str) (c : GameCalculation)
    (es : SpellCalc) (key : Str) :
    fragmentOf ext spl ((k, c) :: es) key
      = if k = key then entryFragment ext spl c else fragmentOf ext spl es key := by
  unfold fragmentOf
  by_cases h : k = key
  · simp only [GoMap.get?, if_pos h]
  · simp only [GoMap.get?, if_neg h]

theorem fragmentOf_of_not_mem (ext : TtpExt) (spl : SpellDataResource) (es : SpellCalc)
    (key : Str) (h : key ∉ GoMap.keys es) : fragmentOf ext spl es key = none := by
  unfold fragmentOf
  rw [GoMap.get?_eq_none_of_not_mem es key h]

/-- The run of `toTooltip` over the entries `es`, in the order of the list, on
a template laid out around its tokens: every token whose key has a fragment in
`es` is replaced by that fragment, whatever the order. -/
theorem toTooltip_renderTemplate (ext : TtpExt) (spl : SpellDataResource) (p0 : Str)
    (items : List (Str × Str)) (hp0 : '@' ∉ p0)
    (hitems : ∀ it ∈ items, '@' ∉ it.1 ∧ '@' ∉ it.2) (es : SpellCalc) :
    ∀ sub : Str → Option Str,
      (GoMap.keys es).Nodup →
      (∀ k ∈ GoMap.keys es, sub k = none) →
      (∀ k ∈ GoMap.keys es, '@' ∉ k) →
      (∀ e ∈ es, ∀ r, entryFragment ext spl e.2 = some r → '@' ∉ r) →
      (∀ key r1, sub key = some r1 → '@' ∉ r1) →
      Separated (GoMap.keys es) items →
      SpellCalc.toTooltip ext es (renderTemplate sub p0 items) spl
        = renderTemplate (overlay sub (fragmentOf ext spl es)) p0 items := by
  induction es with
  | nil =>
    intro sub _ _ _ _ _ _
    have hov : overlay sub (fragmentOf ext spl []) = sub := by
      funext key
      unfold overlay
      cases sub key <;> rfl
    rw [hov]
    rfl
  | cons e es ih =>
    obtain ⟨k, c⟩ := e
    intro sub hnd hsub hkeys hfrag hvals hsep
    have hnd1 : (GoMap.keys es).Nodup := (List.nodup_cons.mp hnd).2
    have hknot : k ∉ GoMap.keys es := (List.nodup_cons.mp hnd).1
    have hkeys1 : ∀ k1 ∈ GoMap.keys es, '@' ∉ k1 :=
      fun k1 hk1 => hkeys k1 (List.mem_cons_of_mem _ hk1)
    have hfrag1 : ∀ e ∈ es, ∀ r, entryFragment ext spl e.2 = some r → '@' ∉ r :=
      fun e he => hfrag e (List.mem_cons_of_mem _ he)
    have hsep1 : Separated (GoMap.keys es) items :=
      Separated_mono _ _ (fun k1 hk1 => List.mem_cons_of_mem _ hk1) items hsep
    have hstep : SpellCalc.toTooltip ext ((k, c) :: es) (renderTemplate sub p0 items) spl
        = SpellCalc.toTooltip ext es
            (toTooltipStep ext spl (renderTemplate sub p0 items) (k, c)) spl := rfl
    rw [hstep, toTooltipStep_eq]
    simp only
    cases hc : entryFragment ext spl c with
    | none =>
      simp only
      rw [ih sub hnd1 (fun k1 hk1 => hsub k1 (List.mem_cons_of_mem _ hk1)) hkeys1 hfrag1 hvals
        hsep1]
      have hov : overlay sub (fragmentOf ext spl es)
          = overlay sub (fragmentOf ext spl ((k, c) :: es)) := by
        funext key
        unfold overlay
        rw [fragmentOf_cons]
        by_cases hkk : k = key
        · rw [if_pos hkk, hc, ← hkk, fragmentOf_of_not_mem ext spl es k hknot]
        · rw [if_neg hkk]
      rw [hov]
    | some r =>
      simp only
      have hk : '@' ∉ k := hkeys k (List.mem_cons_self _ _)
      have hr : '@' ∉ r := hfrag (k, c) (List.mem_cons_self _ _) r hc
      have hsubk : sub k = none := hsub k (List.mem_cons_self _ _)
      have hsepk : Separated [k] items :=
        Separated_mono _ _ (fun k1 hk1 => by
          rw [List.mem_singleton.mp hk1]
          exact List.mem_cons_self _ _) items hsep
      have hrep : Replace (renderTemplate sub p0 items) (token k) r
          = renderTemplate (fun key => if key = k then some r else sub key) p0 items := by
        unfold Replace renderTemplate
        rw [if_neg (token_ne_nil k)]
        exact replaceScan_renderItems k r hk sub hsubk items p0 hp0 hitems
          (fun it _ r1 h1 => hvals it.1 r1 h1) hsepk
      rw [hrep, ih (fun key => if key = k then some r else sub key) hnd1 ?_ hkeys1 hfrag1 ?_ hsep1]
      · have hov : overlay (fun key => if key = k then some r else sub key)
            (fragmentOf ext spl es) = overlay sub (fragmentOf ext spl ((k, c) :: es)) := by
          funext key
          unfold overlay
          rw [fragmentOf_cons]
          by_cases hkk : key = k
          · rw [hkk]
            simp only [if_true, hsubk, hc]
          · have hkk2 : ¬ k = key := fun h => hkk h.symm
            simp only [if_neg hkk, if_neg hkk2]
        rw [hov]
      · intro k1 hk1
        have hne : ¬ k1 = k := fun h => hknot (h ▸ hk1)
        simp only [if_neg hne]
        exact hsub k1 (List.mem_cons_of_mem _ hk1)
      · intro key r1 h1
        by_cases hkk : key = k
        · simp only [if_pos hkk, Option.some.injEq] at h1
          rw [← h1]
          exact hr
        · simp only [if_neg hkk] at h1
          exact hvals key r1 h1

theorem GoMap.get?_perm {α : Type} (m1 m2 : GoMap α) (hperm : List.Perm m1 m2)
    (hnd : (GoMap.keys m1).Nodup) (k : Str) : GoMap.get? m1 k = GoMap.get? m2 k := by
  induction hperm with
  | nil => rfl
  | cons x _ ih =>
    obtain ⟨k1, v1⟩ := x
    have hnd1 := (List.nodup_cons.mp hnd).2
    simp only [GoMap.get?, ih hnd1]
  | swap x y l =>
    obtain ⟨kx, vx⟩ := x
    obtain ⟨ky, vy⟩ := y
    have hne : ky ≠ kx := by
      intro h
      have := (List.nodup_cons.mp hnd).1
      exact this (h ▸ List.mem_cons_self _ _)
    simp only [GoMap.get?]
    by_cases h1 : ky = k
    · have h2 : ¬ kx = k := fun h => hne (h1.trans h.symm)
      rw [if_pos h1, if_neg h2, if_pos h1]
    · rw [if_neg h1]
      by_cases h2 : kx = k
      · rw [if_pos h2, if_pos h2]
      · rw [if_neg h2, if_neg h2, if_neg h1]
  | trans h12 _ ih1 ih2 =>
    have hnd2 : (GoMap.keys _).Nodup := (List.Perm.nodup_iff (h12.map Prod.fst)).mp hnd
    rw [ih1 hnd, ih2 hnd2]

/-! ## Formula resolver: claim C19 -/

/-- Counterexample to C19: two orderings of the same two entries, with distinct
keys, give different tooltips. With `chainA` and `chainB` on the template
`@A@`, the fragment of `A` holds the token of `B`, which is substituted only
when `B` is visited after `A`. With two harmless calculations on the template
`@A@B@`, the two tokens share a character and the first visited wins. -/
theorem toTooltip_depends_on_order :
    List.Perm [("A".toList, chainA), ("B".toList, chainB)]
        [("B".toList, chainB), ("A".toList, chainA)]
    ∧ (GoMap.keys [("A".toList, chainA), ("B".toList, chainB)]).Nodup
    ∧ SpellCalc.toTooltip sampleTtpExt [("A".toList, chainA), ("B".toList, chainB)]
        "@A@".toList damageSpell
        = "\x7b\x7bNOT IMPL: \x7b\x7bNOT IMPL: X\x7d\x7d\x7d\x7d".toList
    ∧ SpellCalc.toTooltip sampleTtpExt [("B".toList, chainB), ("A".toList, chainA)]
        "@A@".toList damageSpell = "\x7b\x7bNOT IMPL: @B@\x7d\x7d".toList
    ∧ SpellCalc.toTooltip sampleTtpExt [("A".toList, damageCalc), ("B".toList, damageCalc)]
        "@A@B@".toList damageSpell = "80B@".toList
    ∧ SpellCalc.toTooltip sampleTtpExt [("B".toList, damageCalc), ("A".toList, damageCalc)]
        "@A@B@".toList damageSpell = "@A80".toList := by
  refine ⟨List.Perm.swap _ _ _, by decide, by decide, by decide, by decide, by decide⟩

/-- C19, amended: on a template laid out as pieces of text around tokens,
`p0 @k1@ p1 @k2@ p2 ...`, in which no piece and no token name holds the
character `@` and every piece followed by another token holds a character that
occurs in no key of the map, and for a calculation map with distinct keys
whose keys and fragments hold no `@`, toTooltip gives the same tooltip in
every visiting order: the template with each token whose key has a fragment in
the map replaced by that fragment. -/
theorem toTooltip_order_independent_when_separated (ext : TtpExt) (spl : SpellDataResource)
    (sc1 sc2 : SpellCalc) (p0 : Str) (items : List (Str × Str))
    (hperm : List.Perm sc1 sc2)
    (hnd : (GoMap.keys sc1).Nodup)
    (hkeys : ∀ k ∈ GoMap.keys sc1, '@' ∉ k)
    (hfrag : ∀ e ∈ sc1, ∀ r, entryFragment ext spl e.2 = some r → '@' ∉ r)
    (hp0 : '@' ∉ p0)
    (hitems : ∀ it ∈ items, '@' ∉ it.1 ∧ '@' ∉ it.2)
    (hsep : Separated (GoMap.keys sc1) items) :
    SpellCalc.toTooltip ext sc1 (renderTemplate (fun _ => none) p0 items) spl
      = SpellCalc.toTooltip ext sc2 (renderTemplate (fun _ => none) p0 items) spl
    ∧ SpellCalc.toTooltip ext sc1 (renderTemplate (fun _ => none) p0 items) spl
      = renderTemplate (fragmentOf ext spl sc1) p0 items := by
  have hov : ∀ f : Str → Option Str, overlay (fun _ => none) f = f := by
    intro f
    funext key
    rfl
  have hkperm : List.Perm (GoMap.keys sc1) (GoMap.keys sc2) := hperm.map Prod.fst
  have h1 := toTooltip_renderTemplate ext spl p0 items hp0 hitems sc1 (fun _ => none)
    hnd (fun _ _ => rfl) hkeys hfrag (fun _ _ h => absurd h (by simp)) hsep
  have h2 := toTooltip_renderTemplate ext spl p0 items hp0 hitems sc2 (fun _ => none)
    ((List.Perm.nodup_iff hkperm).mp hnd) (fun _ _ => rfl)
    (fun k hk => hkeys k (hkperm.mem_iff.mpr hk))
    (fun e he => hfrag e (hperm.mem_iff.mpr he))
    (fun _ _ h => absurd h (by simp))
    (Separated_mono _ _ (fun k hk => hkperm.mem_iff.mpr hk) items hsep)
  rw [hov] at h1 h2
  have hfun : fragmentOf ext spl sc2 = fragmentOf ext spl sc1 := by
    funext key
    unfold fragmentOf
    rw [GoMap.get?_perm sc1 sc2 hperm hnd key]
  rw [hfun] at h2
  exact ⟨h1.trans h2.symm, h1⟩

/-- Witness of C19 as amended: the template
`Deals @Damage@ magic damage plus @Bonus@ bonus.` with the calculations
`Damage` and `Bonus` visited in either order. -/
theorem toTooltip_order_independent_when_separated_witness :
    renderTemplate (fun _ => none) "Deals ".toList damageBonusItems
      = "Deals @Damage@ magic damage plus @Bonus@ bonus.".toList
    ∧ SpellCalc.toTooltip sampleTtpExt [("Damage".toList, damageCalc), ("Bonus".toList, bonusCalc)]
        "Deals @Damage@ magic damage plus @Bonus@ bonus.".toList damageSpell
      = "Deals 80 magic damage plus (+ 80% bonus AP) bonus.".toList
    ∧ SpellCalc.toTooltip sampleTtpExt [("Bonus".toList, bonusCalc), ("Damage".toList, damageCalc)]
        "Deals @Damage@ magic damage plus @Bonus@ bonus.".toList damageSpell
      = "Deals 80 magic damage plus (+ 80% bonus AP) bonus.".toList := by
  have h := toTooltip_order_independent_when_separated sampleTtpExt damageSpell
    [("Damage".toList, damageCalc), ("Bonus".toList, bonusCalc)]
    [("Bonus".toList, bonusCalc), ("Damage".toList, damageCalc)]
    "Deals ".toList damageBonusItems
    (List.Perm.swap _ _ _) (by decide)
    (by
      intro k hk
      simp only [GoMap.keys, List.map_cons, List.map_nil, List.mem_cons, List.mem_nil_iff,
        or_false] at hk
      rcases hk with rfl | rfl <;> decide)
    (by
      intro e he r hr
      simp only [List.mem_cons, List.mem_nil_iff, or_false] at he
      rcases he with rfl | rfl
      · have hv : entryFragment sampleTtpExt damageSpell damageCalc = some "80".toList := by
          decide
        rw [hv] at hr
        rw [← Option.some.inj hr]
        decide
      · have hv : entryFragment sampleTtpExt damageSpell bonusCalc
            = some "(+ 80% bonus AP)".toList := by decide
        rw [hv] at hr
        rw [← Option.some.inj hr]
        decide)
    (by decide)
    (by
      intro it hit
      simp only [damageBonusItems, List.mem_cons, List.mem_nil_iff, or_false] at hit
      rcases hit with rfl | rfl <;> exact ⟨by decide, by decide⟩)
    ⟨⟨' ', by decide, by
      intro key hkey
      simp only [GoMap.keys, List.map_cons, List.map_nil, List.mem_cons, List.mem_nil_iff,
        or_false] at hkey
      rcases hkey with rfl | rfl <;> decide⟩, trivial⟩
  have hr : renderTemplate (fun _ => none) "Deals ".toList damageBonusItems
      = "Deals @Damage@ magic damage plus @Bonus@ bonus.".toList := by decide
  have h0 : SpellCalc.toTooltip sampleTtpExt
      [("Damage".toList, damageCalc), ("Bonus".toList, bonusCalc)]
      "Deals @Damage@ magic damage plus @Bonus@ bonus.".toList damageSpell
      = "Deals 80 magic damage plus (+ 80% bonus AP) bonus.".toList := by decide
  rw [hr] at h
  exact ⟨hr, h0, h.1.symm.trans h0⟩

end Pots
